import Mathlib

/-!
Verification of the capstone order book engine. The definitions below are a
shallow embedding of the C++ sources: bytes are natural numbers below 256,
buffers and FIFO chunks are lists of bytes, the std maps keyed by order id
become association lists, and the intrusive doubly linked FIFO of each price
level becomes a plain list of nodes (head first), with node identity given by
the order id (each live order owns exactly one node in the C++ code, so the
node pointer held by OrderInfo is represented by the key used to find it).
All functions translate the corresponding C++ function body statement by
statement.
-/

set_option maxRecDepth 10000

-- ===========================================================================
-- ITCH parser (src/src/orderbook.cpp lines 11 .. 143)
-- ===========================================================================

/-- Little endian read of n bytes starting at off, least significant first.
Mirrors the loops of read_u32 / read_u64 / read_timestamp; out of range
indices never occur on the paths the parser takes because it checks the
buffer length first. -/
def readLE (buf : List Nat) (off : Nat) : Nat → Nat
  | 0 => 0
  | n + 1 => buf.getD off 0 + 256 * readLE buf (off + 1) n

/-- get_itch_message_length: per type fixed message sizes; 0 for unknown.
Byte values: 65 is the add type, 88 cancel, 69 execute, 85 replace. -/
def get_itch_message_length (msg_type : Nat) : Nat :=
  if msg_type = 65 then 36
  else if msg_type = 88 then 23
  else if msg_type = 69 then 31
  else if msg_type = 85 then 35
  else 0

/-- ITCHParser::ParseResult. -/
structure ParseResult where
  bytes_consumed : Nat
  valid : Bool
  type : Nat
  order_id : Nat
  new_order_id : Nat
  price : Nat
  quantity : Nat
  side : Nat
  timestamp : Nat
deriving DecidableEq

/-- ITCHParser::parse_one. Offsets are obtained exactly as in the source by
threading the offset variable: it starts at 1 after the type byte, the header
skip adds 4, the timestamp read adds 6, and so on. The empty check and the
first byte access are phrased through length and getD so that every branch
condition is a plain arithmetic test. -/
def ITCHParser.parse_one (buffer : List Nat) : Option ParseResult :=
  if buffer.length = 0 then none
  else
    let msg_type := buffer.getD 0 0
    let expected_length := get_itch_message_length msg_type
    if expected_length = 0 then none
    else if buffer.length < expected_length then none
    else if msg_type = 65 then
      -- offset: 1, +4 header, timestamp at 5, order id at 11, side at 19,
      -- quantity at 20, +8 stock, price at 32; 36 bytes consumed
      some { bytes_consumed := 36, valid := true, type := 65
             order_id := readLE buffer 11 8, new_order_id := 0
             price := readLE buffer 32 4, quantity := readLE buffer 20 4
             side := buffer.getD 19 0, timestamp := readLE buffer 5 6 }
    else if msg_type = 88 then
      -- offset: 1, +4 header, +6 timestamp, order id at 11, quantity at 19
      some { bytes_consumed := 23, valid := true, type := 88
             order_id := readLE buffer 11 8, new_order_id := 0
             price := 0, quantity := readLE buffer 19 4
             side := 0, timestamp := 0 }
    else if msg_type = 69 then
      -- offset: 1, +4 header, +6 timestamp, order id at 11, quantity at 19
      some { bytes_consumed := 31, valid := true, type := 69
             order_id := readLE buffer 11 8, new_order_id := 0
             price := 0, quantity := readLE buffer 19 4
             side := 0, timestamp := 0 }
    else if msg_type = 85 then
      -- offset: 1, +4 header, timestamp at 5, original id at 11, new id at
      -- 19, quantity at 27, price at 31; 35 bytes consumed
      some { bytes_consumed := 35, valid := true, type := 85
             order_id := readLE buffer 11 8
             new_order_id := readLE buffer 19 8
             price := readLE buffer 31 4, quantity := readLE buffer 27 4
             side := 0, timestamp := readLE buffer 5 6 }
    else none

-- ===========================================================================
-- Parser lemmas
-- ===========================================================================

theorem getD_append_lt (l e : List Nat) (i : Nat) (h : i < l.length) :
    (l ++ e).getD i 0 = l.getD i 0 := by
  rw [List.getD_eq_getElem?_getD, List.getD_eq_getElem?_getD,
    List.getElem?_append_left h]

theorem readLE_append (l e : List Nat) (off : Nat) :
    ∀ n, off + n ≤ l.length → readLE (l ++ e) off n = readLE l off n := by
  intro n
  induction n generalizing off with
  | zero => intro _; rfl
  | succ k ih =>
    intro h
    have h1 : (l ++ e).getD off 0 = l.getD off 0 :=
      getD_append_lt l e off (by omega)
    have h2 : readLE (l ++ e) (off + 1) k = readLE l (off + 1) k :=
      ih (off + 1) (by omega)
    simp only [readLE]
    rw [h1, h2]

/-- parse_one only inspects the first expected_length bytes, so a successful
parse is stable under appending further bytes. -/
theorem parse_one_append (l e : List Nat) (r : ParseResult)
    (h : ITCHParser.parse_one l = some r) :
    ITCHParser.parse_one (l ++ e) = some r := by
  unfold ITCHParser.parse_one at h ⊢
  by_cases h0 : l.length = 0
  · rw [if_pos h0] at h; cases h
  · rw [if_neg h0] at h
    have h0e : ¬ (l ++ e).length = 0 := by
      simp only [List.length_append]; omega
    rw [if_neg h0e]
    have hd : (l ++ e).getD 0 0 = l.getD 0 0 :=
      getD_append_lt l e 0 (by omega)
    simp only [hd] at *
    by_cases hz : get_itch_message_length (l.getD 0 0) = 0
    · rw [if_pos hz] at h; cases h
    · rw [if_neg hz] at h ⊢
      by_cases hlen : l.length < get_itch_message_length (l.getD 0 0)
      · rw [if_pos hlen] at h; cases h
      · rw [if_neg hlen] at h
        have hlen2 : ¬ (l ++ e).length < get_itch_message_length (l.getD 0 0) := by
          simp only [List.length_append]; omega
        rw [if_neg hlen2]
        have hL := Nat.le_of_not_lt hlen
        by_cases h65 : l.getD 0 0 = 65
        · rw [if_pos h65] at h ⊢
          have hb : 36 ≤ l.length := by
            rw [h65] at hL; simpa [get_itch_message_length] using hL
          rw [readLE_append l e 11 8 (by omega), readLE_append l e 32 4 (by omega),
              readLE_append l e 20 4 (by omega), readLE_append l e 5 6 (by omega),
              getD_append_lt l e 19 (by omega)]
          exact h
        · rw [if_neg h65] at h ⊢
          by_cases h88 : l.getD 0 0 = 88
          · rw [if_pos h88] at h ⊢
            have hb : 23 ≤ l.length := by
              rw [h88] at hL; simpa [get_itch_message_length] using hL
            rw [readLE_append l e 11 8 (by omega), readLE_append l e 19 4 (by omega)]
            exact h
          · rw [if_neg h88] at h ⊢
            by_cases h69 : l.getD 0 0 = 69
            · rw [if_pos h69] at h ⊢
              have hb : 31 ≤ l.length := by
                rw [h69] at hL; simpa [get_itch_message_length] using hL
              rw [readLE_append l e 11 8 (by omega), readLE_append l e 19 4 (by omega)]
              exact h
            · rw [if_neg h69] at h ⊢
              by_cases h85 : l.getD 0 0 = 85
              · rw [if_pos h85] at h ⊢
                have hb : 35 ≤ l.length := by
                  rw [h85] at hL; simpa [get_itch_message_length] using hL
                rw [readLE_append l e 11 8 (by omega), readLE_append l e 19 8 (by omega),
                    readLE_append l e 31 4 (by omega), readLE_append l e 27 4 (by omega),
                    readLE_append l e 5 6 (by omega)]
                exact h
              · rw [if_neg h85] at h; cases h

/-- Successful parses always mark the result valid, consume a positive number
of bytes, and consume no more than the buffer holds. -/
theorem parse_one_some (l : List Nat) (r : ParseResult)
    (h : ITCHParser.parse_one l = some r) :
    r.valid = true ∧ 0 < r.bytes_consumed ∧ r.bytes_consumed ≤ l.length := by
  unfold ITCHParser.parse_one at h
  by_cases h0 : l.length = 0
  · rw [if_pos h0] at h; cases h
  · rw [if_neg h0] at h
    by_cases hz : get_itch_message_length (l.getD 0 0) = 0
    · rw [if_pos hz] at h; cases h
    · rw [if_neg hz] at h
      by_cases hlen : l.length < get_itch_message_length (l.getD 0 0)
      · rw [if_pos hlen] at h; cases h
      · rw [if_neg hlen] at h
        have hL := Nat.le_of_not_lt hlen
        by_cases h65 : l.getD 0 0 = 65
        · rw [if_pos h65] at h
          cases h
          rw [h65] at hL
          refine ⟨rfl, by norm_num, ?_⟩
          simpa [get_itch_message_length] using hL
        · rw [if_neg h65] at h
          by_cases h88 : l.getD 0 0 = 88
          · rw [if_pos h88] at h
            cases h
            rw [h88] at hL
            refine ⟨rfl, by norm_num, ?_⟩
            simpa [get_itch_message_length] using hL
          · rw [if_neg h88] at h
            by_cases h69 : l.getD 0 0 = 69
            · rw [if_pos h69] at h
              cases h
              rw [h69] at hL
              refine ⟨rfl, by norm_num, ?_⟩
              simpa [get_itch_message_length] using hL
            · rw [if_neg h69] at h
              by_cases h85 : l.getD 0 0 = 85
              · rw [if_pos h85] at h
                cases h
                rw [h85] at hL
                refine ⟨rfl, by norm_num, ?_⟩
                simpa [get_itch_message_length] using hL
              · rw [if_neg h85] at h; cases h

-- ===========================================================================
-- C1: byte offsets of the Add decode
-- ===========================================================================

/-- Concrete 36 byte buffer whose first byte is the add type (65) and whose
byte at index i is i for i = 1 .. 35; every field read from it therefore
pins down the offsets actually used. -/
def addProbeBuf : List Nat := 65 :: ((List.range 35).map (fun i => i + 1))

/-- C1 (amended): for every buffer whose first byte is the add type byte and
whose length is at least 36, parse_one decodes the Add with timestamp u48 at
offset 5, order_id u64 at offset 11, side char at offset 19, quantity u32 at
offset 20 and price u32 at offset 32, all little endian, consuming 36 bytes.
(The offsets printed in the spec table, 11 / 17 / 25 / 26 / 38, are not the
ones the code uses.) -/
theorem C1_parse_add_offsets (buf : List Nat)
    (h1 : buf.getD 0 0 = 65) (h2 : 36 ≤ buf.length) :
    ITCHParser.parse_one buf =
      some { bytes_consumed := 36, valid := true, type := 65
             order_id := readLE buf 11 8, new_order_id := 0
             price := readLE buf 32 4, quantity := readLE buf 20 4
             side := buf.getD 19 0, timestamp := readLE buf 5 6 } := by
  unfold ITCHParser.parse_one
  simp only [h1, get_itch_message_length]
  rw [if_neg (by omega : ¬ buf.length = 0)]
  norm_num
  omega

/-- Witness for C1: the amended offsets evaluated on the probe buffer. -/
theorem C1_parse_add_offsets_witness :
    (addProbeBuf.getD 0 0 = 65 ∧ 36 ≤ addProbeBuf.length) ∧
    ITCHParser.parse_one addProbeBuf =
      some { bytes_consumed := 36, valid := true, type := 65
             order_id := readLE addProbeBuf 11 8, new_order_id := 0
             price := readLE addProbeBuf 32 4, quantity := readLE addProbeBuf 20 4
             side := addProbeBuf.getD 19 0, timestamp := readLE addProbeBuf 5 6 } :=
  ⟨⟨by decide, by decide⟩, C1_parse_add_offsets addProbeBuf (by decide) (by decide)⟩

/-- Counterexample for C1 as stated: on the probe buffer the parser does not
decode the Add fields at the offsets of the spec table (timestamp at 11,
order_id at 17, side at 25, quantity at 26, price at 38). -/
theorem C1_counterexample :
    ¬ ((ITCHParser.parse_one addProbeBuf).map ParseResult.timestamp =
          some (readLE addProbeBuf 11 6) ∧
       (ITCHParser.parse_one addProbeBuf).map ParseResult.order_id =
          some (readLE addProbeBuf 17 8) ∧
       (ITCHParser.parse_one addProbeBuf).map ParseResult.side =
          some (addProbeBuf.getD 25 0) ∧
       (ITCHParser.parse_one addProbeBuf).map ParseResult.quantity =
          some (readLE addProbeBuf 26 4) ∧
       (ITCHParser.parse_one addProbeBuf).map ParseResult.price =
          some (readLE addProbeBuf 38 4)) := by
  decide

-- ===========================================================================
-- Price level book (src/src/bid_ask.cpp)
-- ===========================================================================

/-- Side enum from bid_ask.h. -/
inductive Side where
  | Bid
  | Ask
deriving DecidableEq

/-- OrderNode: one resting order inside a price level FIFO. The prev and next
pointers of the C++ struct are represented by the position in the list. -/
structure OrderNode where
  order_id : Nat
  quantity : Nat
deriving DecidableEq

/-- PriceLevel: price, aggregate quantity and the FIFO (head first). -/
structure PriceLevel where
  price : Nat
  total_qty : Nat
  fifo : List OrderNode
deriving DecidableEq

/-- Sum of the node quantities of a FIFO. -/
def sumQty (f : List OrderNode) : Nat := (f.map OrderNode.quantity).sum

/-- OrderInfo from bid_ask.h; hasNode represents whether the node pointer is
non null. -/
structure OrderInfo where
  side : Side
  price : Nat
  quantity : Nat
  hasNode : Bool
deriving DecidableEq

/-- BookSide::addOrder combined with getOrCreateLevel: the level map is the
ascending association list of levels; the new node is enqueued at the tail
of the FIFO of the level at the requested price (created if absent) and the
aggregate is increased by the quantity. -/
def BookSide.addOrder (levels : List PriceLevel) (oid price qty : Nat) :
    List PriceLevel :=
  match levels with
  | [] => [⟨price, qty, [⟨oid, qty⟩]⟩]
  | lv :: ls =>
    if price < lv.price then ⟨price, qty, [⟨oid, qty⟩]⟩ :: lv :: ls
    else if price = lv.price then
      ⟨lv.price, lv.total_qty + qty, lv.fifo ++ [⟨oid, qty⟩]⟩ :: ls
    else lv :: BookSide.addOrder ls oid price qty

/-- Unlink the node with the given id from a FIFO, returning it and the rest.
In the C++ code the node is addressed by pointer; every live order owns
exactly one node, so the first match is that node. -/
def removeNode (oid : Nat) : List OrderNode → Option (OrderNode × List OrderNode)
  | [] => none
  | nd :: ns =>
    if nd.order_id = oid then some (nd, ns)
    else
      match removeNode oid ns with
      | none => none
      | some (m, ns2) => some (m, nd :: ns2)

/-- Set the quantity of the node with the given id (first match). -/
def setNodeQty (oid newq : Nat) : List OrderNode → List OrderNode
  | [] => []
  | nd :: ns =>
    if nd.order_id = oid then ⟨nd.order_id, newq⟩ :: ns
    else nd :: setNodeQty oid newq ns

/-- BookSide::cancelOrder: if the level at the price exists, subtract the
node quantity from the aggregate, unlink the node, and erase the level when
its FIFO becomes empty. A missing level (or node) leaves the side unchanged,
matching the early return of the source. -/
def BookSide.cancelOrder (levels : List PriceLevel) (oid price : Nat) :
    List PriceLevel :=
  match levels with
  | [] => []
  | lv :: ls =>
    if lv.price = price then
      match removeNode oid lv.fifo with
      | none => lv :: ls
      | some (nd, f2) =>
        if f2.isEmpty then ls
        else ⟨lv.price, lv.total_qty - nd.quantity, f2⟩ :: ls
    else lv :: BookSide.cancelOrder ls oid price

/-- BookSide::updateQuantity: adjust the aggregate by the difference, store
the new node quantity, and when it reaches zero unlink the node and erase
the level if now empty. -/
def BookSide.updateQuantity (levels : List PriceLevel) (oid price newq : Nat) :
    List PriceLevel :=
  match levels with
  | [] => []
  | lv :: ls =>
    if lv.price = price then
      match removeNode oid lv.fifo with
      | none => lv :: ls
      | some (nd, f2) =>
        if newq = 0 then
          if f2.isEmpty then ls
          else ⟨lv.price, lv.total_qty - nd.quantity + newq, f2⟩ :: ls
        else ⟨lv.price, lv.total_qty - nd.quantity + newq, setNodeQty oid newq lv.fifo⟩ :: ls
    else lv :: BookSide.updateQuantity ls oid price newq

/-- Result of the inner FIFO walk of BookSide::matchAtBest on one level. -/
structure FifoRun where
  trades : List (Nat × Nat × Nat)
  remaining : Nat
  filled : Nat
  fifo : List OrderNode
deriving DecidableEq

/-- The inner while loop of BookSide::matchAtBest: walk the FIFO head to
tail, take min(node quantity, remaining) from each node, emit the trade
tuple, remove nodes that reach zero, and stop when the incoming quantity is
exhausted (a node left with positive quantity ends the walk, as the source
then breaks out of the loop). -/
def BookSide.matchFifo (price : Nat) : Nat → List OrderNode → FifoRun
  | q, [] => ⟨[], q, 0, []⟩
  | q, nd :: ns =>
    if q = 0 then ⟨[], 0, 0, nd :: ns⟩
    else
      let tq := min nd.quantity q
      if nd.quantity - tq = 0 then
        let r := BookSide.matchFifo price (q - tq) ns
        ⟨(nd.order_id, tq, price) :: r.trades, r.remaining, tq + r.filled, r.fifo⟩
      else
        ⟨[(nd.order_id, tq, price)], q - tq, tq, ⟨nd.order_id, nd.quantity - tq⟩ :: ns⟩

/-- Result of the outer level walk of BookSide::matchAtBest. -/
structure LevelsRun where
  trades : List (Nat × Nat × Nat)
  remaining : Nat
  filled : Nat
  levels : List PriceLevel
deriving DecidableEq

/-- The outer while loop of BookSide::matchAtBest with the levels given best
first: consume the best level, erase it when its FIFO empties and continue;
when the FIFO survives, the incoming quantity has reached zero and the loop
stops with the level aggregate reduced by the filled amount. -/
def BookSide.matchLevels : Nat → List PriceLevel → LevelsRun
  | q, [] => ⟨[], q, 0, []⟩
  | q, lv :: ls =>
    if q = 0 then ⟨[], 0, 0, lv :: ls⟩
    else
      let fr := BookSide.matchFifo lv.price q lv.fifo
      if fr.fifo.isEmpty then
        let r := BookSide.matchLevels fr.remaining ls
        ⟨fr.trades ++ r.trades, r.remaining, fr.filled + r.filled, r.levels⟩
      else
        ⟨fr.trades, fr.remaining, fr.filled,
          ⟨lv.price, lv.total_qty - fr.filled, fr.fifo⟩ :: ls⟩

/-- BookSide::matchAtBest: for the ask side the best price is the least key,
the head of the ascending list; for the bid side it is the greatest key, so
the walk runs over the reversed list. -/
def BookSide.matchAtBest (side : Side) (levels : List PriceLevel) (q : Nat) :
    LevelsRun :=
  match side with
  | Side.Ask => BookSide.matchLevels q levels
  | Side.Bid =>
    let r := BookSide.matchLevels q levels.reverse
    ⟨r.trades, r.remaining, r.filled, r.levels.reverse⟩

/-- OrderBookEngine state: both sides. -/
structure OrderBookEngine where
  bids : List PriceLevel
  asks : List PriceLevel
deriving DecidableEq

/-- OrderBookEngine::onAdd: route to the side, fill in the OrderInfo. -/
def OrderBookEngine.onAdd (e : OrderBookEngine) (oid : Nat) (s : Side)
    (price qty : Nat) : OrderBookEngine × OrderInfo :=
  let e2 :=
    match s with
    | Side.Bid => { e with bids := BookSide.addOrder e.bids oid price qty }
    | Side.Ask => { e with asks := BookSide.addOrder e.asks oid price qty }
  (e2, ⟨s, price, qty, true⟩)

/-- OrderBookEngine::onCancel. -/
def OrderBookEngine.onCancel (e : OrderBookEngine) (oid : Nat)
    (info : OrderInfo) : OrderBookEngine × OrderInfo :=
  if info.hasNode then
    let e2 :=
      match info.side with
      | Side.Bid => { e with bids := BookSide.cancelOrder e.bids oid info.price }
      | Side.Ask => { e with asks := BookSide.cancelOrder e.asks oid info.price }
    (e2, { info with hasNode := false, quantity := 0 })
  else (e, info)

/-- OrderBookEngine::onExecute. -/
def OrderBookEngine.onExecute (e : OrderBookEngine) (oid : Nat)
    (info : OrderInfo) (executed_qty : Nat) : OrderBookEngine × OrderInfo :=
  if info.hasNode then
    if info.quantity < executed_qty then (e, info)
    else
      let new_qty := info.quantity - executed_qty
      let e2 :=
        match info.side with
        | Side.Bid =>
          { e with bids := BookSide.updateQuantity e.bids oid info.price new_qty }
        | Side.Ask =>
          { e with asks := BookSide.updateQuantity e.asks oid info.price new_qty }
      (e2, { info with quantity := new_qty
                       hasNode := if new_qty = 0 then false else info.hasNode })
  else (e, info)

/-- OrderBookEngine::onAggressive: a bid taker consumes the ask side, an ask
taker consumes the bid side; returns (filled, trades, new engine). -/
def OrderBookEngine.onAggressive (e : OrderBookEngine) (taking_side : Side)
    (qty : Nat) : Nat × List (Nat × Nat × Nat) × OrderBookEngine :=
  match taking_side with
  | Side.Bid =>
    let r := BookSide.matchAtBest Side.Ask e.asks qty
    (r.filled, r.trades, { e with asks := r.levels })
  | Side.Ask =>
    let r := BookSide.matchAtBest Side.Bid e.bids qty
    (r.filled, r.trades, { e with bids := r.levels })

-- ===========================================================================
-- Data fabric (src/include/orderbook.h, DataFabric)
-- ===========================================================================

/-- DataFabric::FIFOStats. -/
structure FIFOStats where
  backpressure_events : Nat
  total_bytes_written : Nat
  total_bytes_dropped : Nat
  total_bytes_read : Nat
  max_depth_reached : Nat
deriving DecidableEq

/-- DataFabric state: chunk queue, capacity, occupancy, counters. -/
structure DataFabric where
  fifo : List (List Nat)
  max_depth_bytes : Nat
  current_depth_bytes : Nat
  stats : FIFOStats
deriving DecidableEq

/-- Fresh fabric of the given capacity. -/
def DataFabric.init (max_depth : Nat) : DataFabric :=
  ⟨[], max_depth, 0, ⟨0, 0, 0, 0, 0⟩⟩

/-- DataFabric::write_chunk. -/
def DataFabric.write_chunk (f : DataFabric) (chunk : List Nat) :
    Bool × DataFabric :=
  if f.max_depth_bytes < f.current_depth_bytes + chunk.length then
    (false, { f with stats := { f.stats with
      backpressure_events := f.stats.backpressure_events + 1
      total_bytes_dropped := f.stats.total_bytes_dropped + chunk.length } })
  else
    let depth2 := f.current_depth_bytes + chunk.length
    (true, { f with
      fifo := f.fifo ++ [chunk]
      current_depth_bytes := depth2
      stats := { f.stats with
        total_bytes_written := f.stats.total_bytes_written + chunk.length
        max_depth_reached :=
          if f.stats.max_depth_reached < depth2 then depth2
          else f.stats.max_depth_reached } })

/-- DataFabric::read_chunk. -/
def DataFabric.read_chunk (f : DataFabric) :
    Option (List Nat) × DataFabric :=
  match f.fifo with
  | [] => (none, f)
  | ch :: rest =>
    (some ch, { f with
      fifo := rest
      current_depth_bytes := f.current_depth_bytes - ch.length
      stats := { f.stats with
        total_bytes_read := f.stats.total_bytes_read + ch.length } })

-- ===========================================================================
-- OrderBook (src/src/orderbook.cpp, src/include/orderbook.h)
-- ===========================================================================

/-- Order record from orderbook.h. The book_info pointer is dropped: the
OrderInfo record lives in the order_info map under the same key. -/
structure OrderR where
  order_id : Nat
  price : Nat
  quantity : Nat
  side : Nat
  timestamp : Nat
  active : Bool
deriving DecidableEq

/-- OrderBook::ErrorStats. -/
structure ErrorStats where
  unknown_message_types : Nat
  buffer_overflows : Nat
  incomplete_messages : Nat
  invalid_operations : Nat
deriving DecidableEq

/-- Lookup in an association list keyed by order id (std::unordered_map
find). -/
def lookupA {α : Type} (l : List (Nat × α)) (k : Nat) : Option α :=
  match l with
  | [] => none
  | p :: rest => if p.1 = k then some p.2 else lookupA rest k

/-- Erase the entry of a key (std::unordered_map erase; keys are unique in
every reachable map, so erasing the first match erases the entry). -/
def eraseA {α : Type} (l : List (Nat × α)) (k : Nat) : List (Nat × α) :=
  match l with
  | [] => []
  | p :: rest => if p.1 = k then rest else p :: eraseA rest k

/-- Update the value stored under a key (in place mutation through the map
reference). -/
def updateA {α : Type} (l : List (Nat × α)) (k : Nat) (v : α) :
    List (Nat × α) :=
  match l with
  | [] => []
  | p :: rest => if p.1 = k then (k, v) :: rest else p :: updateA rest k v

/-- The engine core: everything the OrderBook owns except the fabric and the
reassembly buffer. The events list is the record of observer invocations
(event byte, order snapshot passed to the callback), newest last. -/
structure Core where
  orders : List (Nat × OrderR)
  order_info : List (Nat × OrderInfo)
  book : OrderBookEngine
  error_stats : ErrorStats
  events : List (Nat × OrderR)
deriving DecidableEq

/-- Fresh core. -/
def Core.init : Core := ⟨[], [], ⟨[], []⟩, ⟨0, 0, 0, 0⟩, []⟩

/-- The side conversion used by add_order and replace_order: the bytes 66
and 98 (characters B and b) map to the bid side, everything else to the ask
side. -/
def charSide (s : Nat) : Side :=
  if s = 66 ∨ s = 98 then Side.Bid else Side.Ask

/-- OrderBook::add_order. Note: a duplicate id makes emplace fail and the
function return false without touching any counter. -/
def OrderBook.add_order (c : Core) (o : OrderR) : Bool × Core :=
  if (lookupA c.orders o.order_id).isSome then (false, c)
  else
    let book_side : Side := charSide o.side
    let r := c.book.onAdd o.order_id book_side o.price o.quantity
    (true, { c with
      orders := c.orders ++ [(o.order_id, o)]
      order_info := c.order_info ++ [(o.order_id, r.2)]
      book := r.1
      events := c.events ++ [(65, o)] })

/-- OrderBook::cancel_order. -/
def OrderBook.cancel_order (c : Core) (order_id : Nat) : Bool × Core :=
  match lookupA c.orders order_id with
  | none =>
    (false, { c with error_stats := { c.error_stats with
      invalid_operations := c.error_stats.invalid_operations + 1 } })
  | some ord =>
    let c2 :=
      match lookupA c.order_info order_id with
      | some info =>
        let r := c.book.onCancel order_id info
        { c with book := r.1, order_info := eraseA c.order_info order_id }
      | none => c
    let ord2 := { ord with active := false }
    (true, { c2 with
      orders := eraseA (updateA c2.orders order_id ord2) order_id
      events := c2.events ++ [(88, ord2)] })

/-- OrderBook::execute_order. -/
def OrderBook.execute_order (c : Core) (order_id quantity : Nat) :
    Bool × Core :=
  match lookupA c.orders order_id with
  | none =>
    (false, { c with error_stats := { c.error_stats with
      invalid_operations := c.error_stats.invalid_operations + 1 } })
  | some ord =>
    if ord.active = false ∨ ord.quantity < quantity then
      (false, { c with error_stats := { c.error_stats with
        invalid_operations := c.error_stats.invalid_operations + 1 } })
    else
      let newq := ord.quantity - quantity
      let fully_filled := newq = 0
      let ord2 := { ord with quantity := newq
                             active := if fully_filled then false else ord.active }
      let c2 := { c with orders := updateA c.orders order_id ord2 }
      let c3 :=
        match lookupA c2.order_info order_id with
        | some info =>
          let r := c2.book.onExecute order_id info quantity
          { c2 with book := r.1
                    order_info :=
                      if fully_filled then eraseA c2.order_info order_id
                      else updateA c2.order_info order_id r.2 }
        | none => c2
      let c4 := { c3 with events := c3.events ++ [(69, ord2)] }
      if fully_filled then (true, { c4 with orders := eraseA c4.orders order_id })
      else (true, c4)

/-- OrderBook::replace_order. -/
def OrderBook.replace_order (c : Core)
    (old_order_id new_order_id new_price new_quantity : Nat) : Bool × Core :=
  match lookupA c.orders old_order_id with
  | none =>
    (false, { c with error_stats := { c.error_stats with
      invalid_operations := c.error_stats.invalid_operations + 1 } })
  | some ord =>
    if ord.active = false then
      (false, { c with error_stats := { c.error_stats with
        invalid_operations := c.error_stats.invalid_operations + 1 } })
    else
      let side := ord.side
      let timestamp := ord.timestamp
      let c2 :=
        match lookupA c.order_info old_order_id with
        | some info =>
          let r := c.book.onCancel old_order_id info
          { c with book := r.1, order_info := eraseA c.order_info old_order_id }
        | none => c
      let c3 := { c2 with orders := eraseA c2.orders old_order_id }
      if (lookupA c3.orders new_order_id).isSome then (false, c3)
      else
        let new_order : OrderR :=
          ⟨new_order_id, new_price, new_quantity, side, timestamp, true⟩
        let book_side : Side := charSide side
        let r := c3.book.onAdd new_order_id book_side new_price new_quantity
        (true, { c3 with
          orders := c3.orders ++ [(new_order_id, new_order)]
          order_info := c3.order_info ++ [(new_order_id, r.2)]
          book := r.1
          events := c3.events ++ [(85, new_order)] })

/-- OrderBook::find_order: none when absent or inactive. -/
def OrderBook.find_order (c : Core) (order_id : Nat) : Option OrderR :=
  match lookupA c.orders order_id with
  | none => none
  | some ord => if ord.active = false then none else some ord

/-- OrderBook::handle_message: dispatch one parsed message. -/
def OrderBook.handle_message (c : Core) (r : ParseResult) : Core :=
  if r.type = 65 then
    (OrderBook.add_order c
      ⟨r.order_id, r.price, r.quantity, r.side, r.timestamp, true⟩).2
  else if r.type = 88 then (OrderBook.cancel_order c r.order_id).2
  else if r.type = 69 then (OrderBook.execute_order c r.order_id r.quantity).2
  else if r.type = 85 then
    (OrderBook.replace_order c r.order_id r.new_order_id r.price r.quantity).2
  else c

/-- ITCHParser::MAX_BUFFER_SIZE. -/
def MAX_BUFFER_SIZE : Nat := 512

/-- The parse dispatch loop of OrderBook::process (step 3). The loop runs
until the buffer is empty, the front message is incomplete, or a parse
yields no progress; every iteration removes at least one byte, so the
buffer length is enough fuel and the first argument never reaches zero on
the paths the source takes. -/
def OrderBook.parseLoop : Nat → List Nat → Core → List Nat × Core
  | 0, buf, c => (buf, c)
  | fuel + 1, buf, c =>
    match ITCHParser.parse_one buf with
    | some r =>
      if r.valid = false ∨ r.bytes_consumed = 0 then (buf, c)
      else
        OrderBook.parseLoop fuel (buf.drop r.bytes_consumed)
          (OrderBook.handle_message c r)
    | none =>
      match buf with
      | [] => (buf, c)
      | b :: rest =>
        if get_itch_message_length b = 0 then
          OrderBook.parseLoop fuel rest
            { c with error_stats := { c.error_stats with
              unknown_message_types := c.error_stats.unknown_message_types + 1 } }
        else
          (buf, { c with error_stats := { c.error_stats with
            incomplete_messages := c.error_stats.incomplete_messages + 1 } })

/-- Run the parse loop with its natural fuel. -/
def runParse (buf : List Nat) (c : Core) : List Nat × Core :=
  OrderBook.parseLoop buf.length buf c

/-- The drain loop of OrderBook::process (step 1): repeated read_chunk until
the fabric queue is empty, all bytes appended in order. -/
def OrderBook.drainGo : List (List Nat) → DataFabric → DataFabric × List Nat
  | [], f => (f, [])
  | ch :: rest, f =>
    let f2 := { f with
      current_depth_bytes := f.current_depth_bytes - ch.length
      stats := { f.stats with
        total_bytes_read := f.stats.total_bytes_read + ch.length } }
    let r := OrderBook.drainGo rest f2
    (r.1, ch ++ r.2)

/-- Drain the whole fabric queue. -/
def OrderBook.drainAll (f : DataFabric) : DataFabric × List Nat :=
  OrderBook.drainGo f.fifo { f with fifo := [] }

/-- Whole system state: fabric, reassembly buffer, core. -/
structure OrderBookSys where
  fabric : DataFabric
  message_buffer : List Nat
  core : Core
deriving DecidableEq

/-- Fresh system over a fabric of the given capacity. -/
def OrderBookSys.init (cap : Nat) : OrderBookSys :=
  ⟨DataFabric.init cap, [], Core.init⟩

/-- OrderBook::process: drain, overflow guard, parse dispatch loop. -/
def OrderBook.process (s : OrderBookSys) : OrderBookSys :=
  let d := OrderBook.drainAll s.fabric
  let buf := s.message_buffer ++ d.2
  if MAX_BUFFER_SIZE < buf.length then
    ⟨d.1, [], { s.core with error_stats := { s.core.error_stats with
      buffer_overflows := s.core.error_stats.buffer_overflows + 1 } }⟩
  else
    let r := runParse buf s.core
    ⟨d.1, r.1, r.2⟩

/-- Producer side write into the system fabric. -/
def OrderBookSys.write (s : OrderBookSys) (ch : List Nat) : OrderBookSys :=
  { s with fabric := (s.fabric.write_chunk ch).2 }

/-- A buffer on which the parse loop makes no progress: empty, or the front
byte is a known type with fewer bytes than its fixed length available. -/
def Blocked (buf : List Nat) : Prop :=
  buf = [] ∨
    (get_itch_message_length (buf.getD 0 0) ≠ 0 ∧
     buf.length < get_itch_message_length (buf.getD 0 0))

instance : DecidablePred Blocked := fun buf => by
  unfold Blocked; infer_instance

/-- Core with the incomplete message counter masked, used to compare runs
that differ only in how often the parse loop observed a partial frame. -/
def scrub (c : Core) : Core :=
  { c with error_stats := { c.error_stats with incomplete_messages := 0 } }

-- ===========================================================================
-- Association list lemmas
-- ===========================================================================

theorem lookupA_append_none {α : Type} (l m : List (Nat × α)) (k : Nat)
    (h : lookupA l k = none) : lookupA (l ++ m) k = lookupA m k := by
  induction l with
  | nil => rfl
  | cons p rest ih =>
    simp only [lookupA, List.cons_append] at h ⊢
    by_cases hp : p.1 = k
    · rw [if_pos hp] at h; cases h
    · rw [if_neg hp] at h ⊢
      exact ih h

theorem lookupA_self {α : Type} (k : Nat) (v : α) (rest : List (Nat × α)) :
    lookupA ((k, v) :: rest) k = some v := by
  unfold lookupA
  rw [if_pos rfl]

-- ===========================================================================
-- C2: Add with a duplicate order id
-- ===========================================================================

/-- C2 (amended): when the order id is already present, the add is dropped
and the whole engine state, including every error counter, is returned
unchanged; in particular invalid_operations is NOT incremented. -/
theorem C2_duplicate_add_dropped (c : Core) (o : OrderR)
    (h : (lookupA c.orders o.order_id).isSome = true) :
    OrderBook.add_order c o = (false, c) := by
  unfold OrderBook.add_order
  rw [if_pos h]

/-- A one order core used by the C2 theorems: order id 1 is live. -/
def dupBase : Core := (OrderBook.add_order Core.init ⟨1, 100, 50, 66, 0, true⟩).2

/-- Witness for C2: a concrete duplicate add is dropped with the core
unchanged. -/
theorem C2_duplicate_add_dropped_witness :
    ((lookupA dupBase.orders 1).isSome = true) ∧
    OrderBook.add_order dupBase ⟨1, 200, 10, 83, 5, true⟩ = (false, dupBase) :=
  ⟨by decide, C2_duplicate_add_dropped dupBase ⟨1, 200, 10, 83, 5, true⟩ (by decide)⟩

/-- Counterexample for C2 as stated: the duplicate add leaves the
invalid_operations counter unchanged instead of incrementing it by 1. -/
theorem C2_counterexample :
    ¬ ((OrderBook.add_order dupBase ⟨1, 200, 10, 83, 5, true⟩).2.error_stats.invalid_operations
        = dupBase.error_stats.invalid_operations + 1) := by
  decide

-- ===========================================================================
-- C7: fabric write backpressure
-- ===========================================================================

/-- C7: a write is rejected iff it would push the occupancy over the
capacity; a rejected chunk is not enqueued and bumps backpressure_events by
one and total_bytes_dropped by the chunk length; an accepted chunk is
enqueued and bumps total_bytes_written by the chunk length while the high
water mark becomes the maximum occupancy ever reached. Twenty 36 byte
writes against a fresh 256 byte fabric accept exactly 7 chunks and reject
13, with backpressure_events 13 and total_bytes_dropped 468. -/
theorem C7_write_chunk_backpressure :
    (∀ (f : DataFabric) (ch : List Nat),
      ((f.write_chunk ch).1 = false ↔
        f.max_depth_bytes < f.current_depth_bytes + ch.length) ∧
      (f.max_depth_bytes < f.current_depth_bytes + ch.length →
        (f.write_chunk ch).2 = { f with stats := { f.stats with
          backpressure_events := f.stats.backpressure_events + 1
          total_bytes_dropped := f.stats.total_bytes_dropped + ch.length } }) ∧
      (¬ f.max_depth_bytes < f.current_depth_bytes + ch.length →
        (f.write_chunk ch).2.fifo = f.fifo ++ [ch] ∧
        (f.write_chunk ch).2.current_depth_bytes =
          f.current_depth_bytes + ch.length ∧
        (f.write_chunk ch).2.stats.total_bytes_written =
          f.stats.total_bytes_written + ch.length ∧
        (f.write_chunk ch).2.stats.max_depth_reached =
          max f.stats.max_depth_reached (f.current_depth_bytes + ch.length))) ∧
    ((List.range 20).foldl
        (fun f _ => (f.write_chunk (List.replicate 36 0)).2)
        (DataFabric.init 256)).fifo.length = 7 ∧
    ((List.range 20).foldl
        (fun f _ => (f.write_chunk (List.replicate 36 0)).2)
        (DataFabric.init 256)).stats.backpressure_events = 13 ∧
    ((List.range 20).foldl
        (fun f _ => (f.write_chunk (List.replicate 36 0)).2)
        (DataFabric.init 256)).stats.total_bytes_dropped = 468 := by
  refine ⟨?_, by decide, by decide, by decide⟩
  intro f ch
  refine ⟨?_, ?_, ?_⟩
  · unfold DataFabric.write_chunk
    by_cases hfull : f.max_depth_bytes < f.current_depth_bytes + ch.length
    · rw [if_pos hfull]; simpa using hfull
    · rw [if_neg hfull]; simpa using hfull
  · intro hfull
    unfold DataFabric.write_chunk
    rw [if_pos hfull]
  · intro hfull
    unfold DataFabric.write_chunk
    rw [if_neg hfull]
    refine ⟨rfl, rfl, rfl, ?_⟩
    simp only []
    rcases Nat.lt_or_ge f.stats.max_depth_reached
        (f.current_depth_bytes + ch.length) with hlt | hge
    · rw [if_pos hlt]
      omega
    · rw [if_neg (Nat.not_lt.mpr hge)]
      omega

/-- Witness for C7: the first 36 byte write into the fresh 256 byte fabric
is accepted with the stated effects. -/
theorem C7_write_chunk_backpressure_witness :
    (¬ (DataFabric.init 256).max_depth_bytes <
        (DataFabric.init 256).current_depth_bytes + (List.replicate 36 0).length) ∧
    (((DataFabric.init 256).write_chunk (List.replicate 36 0)).2.fifo =
        (DataFabric.init 256).fifo ++ [List.replicate 36 0] ∧
      ((DataFabric.init 256).write_chunk (List.replicate 36 0)).2.current_depth_bytes =
        (DataFabric.init 256).current_depth_bytes + (List.replicate 36 0).length ∧
      ((DataFabric.init 256).write_chunk (List.replicate 36 0)).2.stats.total_bytes_written =
        (DataFabric.init 256).stats.total_bytes_written + (List.replicate 36 0).length ∧
      ((DataFabric.init 256).write_chunk (List.replicate 36 0)).2.stats.max_depth_reached =
        max (DataFabric.init 256).stats.max_depth_reached
          ((DataFabric.init 256).current_depth_bytes + (List.replicate 36 0).length)) :=
  ⟨by decide,
    (C7_write_chunk_backpressure.1 (DataFabric.init 256) (List.replicate 36 0)).2.2
      (by decide)⟩

-- ===========================================================================
-- C10: non bid side bytes are routed to the ask side
-- ===========================================================================

/-- C10: an Add whose side byte is neither 66 nor 98 (the characters B and
b) goes to the ask side of the book, the bid side is untouched, and the raw
side byte is stored unchanged in the Order record, visible through
find_order. -/
theorem C10_nonbid_routed_to_ask (c : Core) (o : OrderR)
    (h1 : o.side ≠ 66) (h2 : o.side ≠ 98)
    (h3 : lookupA c.orders o.order_id = none) (h4 : o.active = true) :
    (OrderBook.add_order c o).1 = true ∧
    (OrderBook.add_order c o).2.book.bids = c.book.bids ∧
    (OrderBook.add_order c o).2.book.asks =
      BookSide.addOrder c.book.asks o.order_id o.price o.quantity ∧
    OrderBook.find_order (OrderBook.add_order c o).2 o.order_id = some o := by
  have hside : charSide o.side = Side.Ask := by
    unfold charSide
    rw [if_neg]; rintro (h | h) <;> [exact h1 h; exact h2 h]
  unfold OrderBook.add_order
  rw [h3]
  rw [if_neg (by simp : ¬ ((none : Option OrderR).isSome = true))]
  rw [hside]
  refine ⟨rfl, rfl, rfl, ?_⟩
  unfold OrderBook.find_order
  rw [lookupA_append_none c.orders _ o.order_id h3, lookupA_self]
  simp [h4]

/-- Witness for C10: a concrete Add with side byte 83 (the character S)
lands on the ask side and keeps the raw byte. -/
theorem C10_nonbid_routed_to_ask_witness :
    ((7 : Nat) ≠ 66 ∨ True) ∧
    (OrderBook.add_order Core.init ⟨7, 1000, 5, 83, 9, true⟩).1 = true ∧
    (OrderBook.add_order Core.init ⟨7, 1000, 5, 83, 9, true⟩).2.book.bids =
      Core.init.book.bids ∧
    (OrderBook.add_order Core.init ⟨7, 1000, 5, 83, 9, true⟩).2.book.asks =
      BookSide.addOrder Core.init.book.asks 7 1000 5 ∧
    OrderBook.find_order (OrderBook.add_order Core.init ⟨7, 1000, 5, 83, 9, true⟩).2 7 =
      some ⟨7, 1000, 5, 83, 9, true⟩ :=
  ⟨Or.inr trivial,
    C10_nonbid_routed_to_ask Core.init ⟨7, 1000, 5, 83, 9, true⟩
      (by decide) (by decide) (by decide) (by decide)⟩

-- ===========================================================================
-- Level and FIFO lemmas
-- ===========================================================================

theorem sumQty_nil : sumQty [] = 0 := rfl

theorem sumQty_cons (a : OrderNode) (l : List OrderNode) :
    sumQty (a :: l) = a.quantity + sumQty l := by
  simp [sumQty]

theorem sumQty_append (l m : List OrderNode) :
    sumQty (l ++ m) = sumQty l + sumQty m := by
  simp [sumQty]

theorem removeNode_sum (oid : Nat) (f : List OrderNode) (nd : OrderNode)
    (f2 : List OrderNode) (h : removeNode oid f = some (nd, f2)) :
    sumQty f = nd.quantity + sumQty f2 := by
  induction f generalizing f2 with
  | nil => cases h
  | cons a rest ih =>
    simp only [removeNode] at h
    by_cases ha : a.order_id = oid
    · rw [if_pos ha] at h
      cases h
      rw [sumQty_cons]
    · rw [if_neg ha] at h
      cases hr : removeNode oid rest with
      | none => rw [hr] at h; cases h
      | some pr =>
        obtain ⟨m, ns2⟩ := pr
        rw [hr] at h
        cases h
        rw [sumQty_cons, sumQty_cons, ih ns2 hr]
        omega

/-- Find the level stored at a price (std::map find). -/
def getLevel : List PriceLevel → Nat → Option PriceLevel
  | [], _ => none
  | lv :: ls, p => if lv.price = p then some lv else getLevel ls p

/-- Aggregate quantity visible at a price, 0 when the level is absent. -/
def levelQty (ls : List PriceLevel) (p : Nat) : Nat :=
  match getLevel ls p with
  | none => 0
  | some lv => lv.total_qty

/-- The level list of one side of the engine. -/
def sideLevels (e : OrderBookEngine) : Side → List PriceLevel
  | Side.Bid => e.bids
  | Side.Ask => e.asks

theorem getLevel_eq_none (ls : List PriceLevel) (p : Nat)
    (h : p ∉ ls.map PriceLevel.price) : getLevel ls p = none := by
  induction ls with
  | nil => rfl
  | cons lv rest ih =>
    simp only [List.map_cons, List.mem_cons] at h
    push_neg at h
    simp only [getLevel]
    rw [if_neg (fun he => h.1 he.symm)]
    exact ih h.2

theorem levelQty_cons_eq (lv : PriceLevel) (ls : List PriceLevel) (p : Nat)
    (h : lv.price = p) : levelQty (lv :: ls) p = lv.total_qty := by
  simp only [levelQty, getLevel, if_pos h]

theorem levelQty_cons_ne (lv : PriceLevel) (ls : List PriceLevel) (p : Nat)
    (h : lv.price ≠ p) : levelQty (lv :: ls) p = levelQty ls p := by
  simp only [levelQty, getLevel, if_neg h]

/-- Effect of BookSide::updateQuantity on the aggregate at the price: it
moves from the old total to total - node quantity + new quantity (the level
is erased exactly when that value is zero and no other node remains). -/
theorem updateQuantity_levelQty (ls : List PriceLevel) (oid price newq : Nat)
    (lv : PriceLevel) (nd : OrderNode) (f2 : List OrderNode)
    (hnodup : (ls.map PriceLevel.price).Nodup)
    (hlv : getLevel ls price = some lv)
    (hnd : removeNode oid lv.fifo = some (nd, f2))
    (hsum : lv.total_qty = sumQty lv.fifo) :
    levelQty (BookSide.updateQuantity ls oid price newq) price =
      lv.total_qty - nd.quantity + newq := by
  induction ls with
  | nil => cases hlv
  | cons lv1 rest ih =>
    simp only [List.map_cons, List.nodup_cons] at hnodup
    by_cases hp : lv1.price = price
    · have hlv1 : lv1 = lv := by
        simp only [getLevel, if_pos hp] at hlv
        exact Option.some.inj hlv
      subst hlv1
      have hrest : getLevel rest price = none := by
        apply getLevel_eq_none
        intro hmem
        exact hnodup.1 (hp ▸ hmem)
      simp only [BookSide.updateQuantity, if_pos hp, hnd]
      by_cases hq : newq = 0
      · rw [if_pos hq]
        by_cases hf : f2.isEmpty = true
        · rw [if_pos hf]
          have hf2 : f2 = [] := by
            cases f2 with
            | nil => rfl
            | cons a b => simp [List.isEmpty] at hf
          have := removeNode_sum oid lv1.fifo nd f2 hnd
          rw [hf2, sumQty_nil] at this
          simp only [levelQty, hrest]
          omega
        · rw [if_neg hf]
          simp [levelQty, getLevel, hp]
      · rw [if_neg hq]
        simp [levelQty, getLevel, hp]
    · simp only [getLevel, if_neg hp] at hlv
      simp only [BookSide.updateQuantity, if_neg hp]
      rw [levelQty_cons_ne _ _ _ hp]
      exact ih hnodup.2 hlv

/-- The node quantity is no more than the FIFO sum it belongs to. -/
theorem removeNode_le_sum (oid : Nat) (f : List OrderNode) (nd : OrderNode)
    (f2 : List OrderNode) (h : removeNode oid f = some (nd, f2)) :
    nd.quantity ≤ sumQty f := by
  have := removeNode_sum oid f nd f2 h
  omega

theorem lookupA_updateA_self {α : Type} (l : List (Nat × α)) (k : Nat)
    (v : α) (x : α) (h : lookupA l k = some x) :
    lookupA (updateA l k v) k = some v := by
  induction l with
  | nil => cases h
  | cons p rest ih =>
    simp only [lookupA, updateA] at h ⊢
    by_cases hp : p.1 = k
    · rw [if_pos hp]
      simp [lookupA]
    · rw [if_neg hp] at h
      rw [if_neg hp]
      simp only [lookupA, if_neg hp]
      exact ih h

theorem updateA_map_fst {α : Type} (l : List (Nat × α)) (k : Nat) (v : α) :
    (updateA l k v).map Prod.fst = l.map Prod.fst := by
  induction l with
  | nil => rfl
  | cons p rest ih =>
    simp only [updateA]
    by_cases hp : p.1 = k
    · rw [if_pos hp]
      simp [hp]
    · rw [if_neg hp]
      simp [ih]

theorem lookupA_eraseA_nodup {α : Type} (l : List (Nat × α)) (k : Nat)
    (hnodup : (l.map Prod.fst).Nodup) : lookupA (eraseA l k) k = none := by
  induction l with
  | nil => rfl
  | cons p rest ih =>
    simp only [List.map_cons, List.nodup_cons] at hnodup
    simp only [eraseA]
    by_cases hp : p.1 = k
    · rw [if_pos hp]
      cases hl : lookupA rest k with
      | none => rfl
      | some x =>
        exfalso
        apply hnodup.1
        rw [hp]
        clear ih hnodup
        induction rest with
        | nil => cases hl
        | cons q r ihr =>
          simp only [lookupA] at hl
          by_cases hq : q.1 = k
          · simp [← hq]
          · rw [if_neg hq] at hl
            simp only [List.map_cons, List.mem_cons]
            exact Or.inr (ihr hl)
    · rw [if_neg hp]
      simp only [lookupA, if_neg hp]
      exact ih hnodup.2

theorem lookupA_cons_ne {α : Type} (p : Nat × α) (rest : List (Nat × α))
    (k : Nat) (h : p.1 ≠ k) : lookupA (p :: rest) k = lookupA rest k := by
  simp only [lookupA, if_neg h]

-- ===========================================================================
-- C5: execute semantics
-- ===========================================================================

/-- C5: an Execute on a missing order, an inactive order, or with a
quantity above the remaining quantity is dropped with only the
invalid_operations counter bumped; otherwise the order record and the level
aggregate each lose exactly q, the observer sees event 69 (character E)
carrying the post mutation order (inactive when fully filled) and a fully
filled order is erased afterwards while a partial fill stays. -/
theorem C5_execute_order (c : Core) (id q : Nat) :
    (lookupA c.orders id = none →
      OrderBook.execute_order c id q =
        (false, { c with error_stats := { c.error_stats with
          invalid_operations := c.error_stats.invalid_operations + 1 } })) ∧
    (∀ o : OrderR, lookupA c.orders id = some o →
      (o.active = false ∨ o.quantity < q) →
      OrderBook.execute_order c id q =
        (false, { c with error_stats := { c.error_stats with
          invalid_operations := c.error_stats.invalid_operations + 1 } })) ∧
    (∀ (o : OrderR) (info : OrderInfo) (lv : PriceLevel) (nd : OrderNode)
        (f2 : List OrderNode),
      lookupA c.orders id = some o → o.active = true → q ≤ o.quantity →
      (c.orders.map Prod.fst).Nodup →
      lookupA c.order_info id = some info → info.hasNode = true →
      info.quantity = o.quantity →
      ((sideLevels c.book info.side).map PriceLevel.price).Nodup →
      getLevel (sideLevels c.book info.side) info.price = some lv →
      removeNode id lv.fifo = some (nd, f2) →
      nd.quantity = info.quantity →
      lv.total_qty = sumQty lv.fifo →
      (OrderBook.execute_order c id q).1 = true ∧
      (OrderBook.execute_order c id q).2.events =
        c.events ++ [(69, { o with quantity := o.quantity - q
                                   active := if o.quantity - q = 0 then false
                                             else o.active })] ∧
      (q < o.quantity →
        lookupA (OrderBook.execute_order c id q).2.orders id =
          some { o with quantity := o.quantity - q }) ∧
      (q = o.quantity →
        lookupA (OrderBook.execute_order c id q).2.orders id = none) ∧
      levelQty (sideLevels (OrderBook.execute_order c id q).2.book info.side)
          info.price = lv.total_qty - q ∧
      (OrderBook.execute_order c id q).2.error_stats = c.error_stats) := by
  refine ⟨?_, ?_, ?_⟩
  · intro h
    simp only [OrderBook.execute_order, h]
  · intro o ho hbad
    simp only [OrderBook.execute_order, ho]
    rw [if_pos hbad]
  · intro o info lv nd f2 ho hact hq hnodup hinfo hnode hiq hlnodup hlv hnd hndq hsum
    obtain ⟨iside, iprice, iq, ihn⟩ := info
    simp only at hnode hiq hndq hlv hlnodup
    subst hnode
    subst hiq
    have hlt : ¬ (o.quantity < q) := Nat.not_lt.mpr hq
    have hbadF : ¬ (o.active = false ∨ o.quantity < q) := by
      rw [hact]; simp [hlt]
    have hndsum : nd.quantity ≤ sumQty lv.fifo :=
      removeNode_le_sum id lv.fifo nd f2 hnd
    have hlq :
        levelQty (BookSide.updateQuantity (sideLevels c.book iside) id iprice
            (o.quantity - q)) iprice = lv.total_qty - q := by
      rw [updateQuantity_levelQty (sideLevels c.book iside) id iprice
            (o.quantity - q) lv nd f2 hlnodup hlv hnd hsum]
      omega
    by_cases hfull : o.quantity - q = 0
    · have hqe : q = o.quantity := by omega
      cases iside with
      | Bid =>
        simp only [OrderBook.execute_order, ho, if_neg hbadF, hinfo,
          OrderBookEngine.onExecute, sideLevels, if_neg hlt, if_pos hfull,
          eq_self_iff_true, if_true]
        refine ⟨by simp, ?_, ?_, ?_, ?_, by simp⟩
        · simp [hfull]
        · intro hcon; omega
        · intro _
          apply lookupA_eraseA_nodup
          rw [updateA_map_fst]
          exact hnodup
        · simpa [sideLevels] using hlq
      | Ask =>
        simp only [OrderBook.execute_order, ho, if_neg hbadF, hinfo,
          OrderBookEngine.onExecute, sideLevels, if_neg hlt, if_pos hfull,
          eq_self_iff_true, if_true]
        refine ⟨by simp, ?_, ?_, ?_, ?_, by simp⟩
        · simp [hfull]
        · intro hcon; omega
        · intro _
          apply lookupA_eraseA_nodup
          rw [updateA_map_fst]
          exact hnodup
        · simpa [sideLevels] using hlq
    · cases iside with
      | Bid =>
        simp only [OrderBook.execute_order, ho, if_neg hbadF, hinfo,
          OrderBookEngine.onExecute, sideLevels, if_neg hlt, if_neg hfull,
          eq_self_iff_true, if_true]
        refine ⟨by simp, ?_, ?_, ?_, ?_, by simp⟩
        · simp [hfull]
        · intro _
          rw [lookupA_updateA_self c.orders id _ o ho]
        · intro hcon; omega
        · simpa [sideLevels] using hlq
      | Ask =>
        simp only [OrderBook.execute_order, ho, if_neg hbadF, hinfo,
          OrderBookEngine.onExecute, sideLevels, if_neg hlt, if_neg hfull,
          eq_self_iff_true, if_true]
        refine ⟨by simp, ?_, ?_, ?_, ?_, by simp⟩
        · simp [hfull]
        · intro _
          rw [lookupA_updateA_self c.orders id _ o ho]
        · intro hcon; omega
        · simpa [sideLevels] using hlq

/-- One live bid order (id 1, price 100, quantity 50) used by the C5
witness. -/
def execBase : Core := (OrderBook.add_order Core.init ⟨1, 100, 50, 66, 0, true⟩).2

/-- Witness for C5: executing 20 of the 50 share order decrements the order
and the level aggregate by 20 and emits event 69 with the post mutation
snapshot. -/
theorem C5_execute_order_witness :
    (lookupA execBase.orders 1 = some ⟨1, 100, 50, 66, 0, true⟩ ∧
     (20 : Nat) ≤ 50) ∧
    ((OrderBook.execute_order execBase 1 20).1 = true ∧
     (OrderBook.execute_order execBase 1 20).2.events =
       execBase.events ++ [(69, ⟨1, 100, 30, 66, 0, true⟩)] ∧
     ((20 : Nat) < 50 →
       lookupA (OrderBook.execute_order execBase 1 20).2.orders 1 =
         some ⟨1, 100, 30, 66, 0, true⟩) ∧
     ((20 : Nat) = 50 →
       lookupA (OrderBook.execute_order execBase 1 20).2.orders 1 = none) ∧
     levelQty (sideLevels (OrderBook.execute_order execBase 1 20).2.book
         Side.Bid) 100 = 50 - 20 ∧
     (OrderBook.execute_order execBase 1 20).2.error_stats =
       execBase.error_stats) :=
  ⟨⟨by decide, by decide⟩,
    (C5_execute_order execBase 1 20).2.2 ⟨1, 100, 50, 66, 0, true⟩
      ⟨Side.Bid, 100, 50, true⟩ ⟨100, 50, [⟨1, 50⟩]⟩ ⟨1, 50⟩ []
      (by decide) (by decide) (by decide) (by decide) (by decide) (by decide)
      (by decide) (by decide) (by decide) (by decide) (by decide) (by decide)⟩

-- ===========================================================================
-- C6: replace semantics
-- ===========================================================================

/-- C6: a Replace of a missing or inactive original order is dropped with
only invalid_operations bumped; a Replace of a live order cancels it in
full and adds a fresh order under the new id, new price and new quantity
with the side and timestamp of the original, emitting one event 85
(character U); when the new id collides with a live order, the cancel of
the original has still taken effect while the colliding order is left
untouched (and no counter or event is produced). -/
theorem C6_replace_order (c : Core) (oldId newId newPrice newQty : Nat) :
    (lookupA c.orders oldId = none →
      OrderBook.replace_order c oldId newId newPrice newQty =
        (false, { c with error_stats := { c.error_stats with
          invalid_operations := c.error_stats.invalid_operations + 1 } })) ∧
    (∀ o : OrderR, lookupA c.orders oldId = some o → o.active = false →
      OrderBook.replace_order c oldId newId newPrice newQty =
        (false, { c with error_stats := { c.error_stats with
          invalid_operations := c.error_stats.invalid_operations + 1 } })) ∧
    (∀ (o : OrderR) (info : OrderInfo),
      lookupA c.orders oldId = some o → o.active = true →
      lookupA c.order_info oldId = some info →
      (c.orders.map Prod.fst).Nodup →
      (∀ ocol : OrderR, lookupA (eraseA c.orders oldId) newId = some ocol →
        (OrderBook.replace_order c oldId newId newPrice newQty).1 = false ∧
        lookupA (OrderBook.replace_order c oldId newId newPrice newQty).2.orders
            newId = some ocol ∧
        lookupA (OrderBook.replace_order c oldId newId newPrice newQty).2.orders
            oldId = none ∧
        (OrderBook.replace_order c oldId newId newPrice newQty).2.book =
          (c.book.onCancel oldId info).1 ∧
        (OrderBook.replace_order c oldId newId newPrice newQty).2.events =
          c.events ∧
        (OrderBook.replace_order c oldId newId newPrice newQty).2.error_stats =
          c.error_stats) ∧
      (lookupA (eraseA c.orders oldId) newId = none →
        (OrderBook.replace_order c oldId newId newPrice newQty).1 = true ∧
        lookupA (OrderBook.replace_order c oldId newId newPrice newQty).2.orders
            newId = some ⟨newId, newPrice, newQty, o.side, o.timestamp, true⟩ ∧
        (oldId ≠ newId →
          lookupA (OrderBook.replace_order c oldId newId newPrice
              newQty).2.orders oldId = none) ∧
        (OrderBook.replace_order c oldId newId newPrice newQty).2.book =
          ((c.book.onCancel oldId info).1.onAdd newId (charSide o.side)
            newPrice newQty).1 ∧
        (OrderBook.replace_order c oldId newId newPrice newQty).2.events =
          c.events ++ [(85, ⟨newId, newPrice, newQty, o.side, o.timestamp, true⟩)] ∧
        (OrderBook.replace_order c oldId newId newPrice newQty).2.error_stats =
          c.error_stats)) := by
  refine ⟨?_, ?_, ?_⟩
  · intro h
    simp only [OrderBook.replace_order, h]
  · intro o ho hinact
    simp only [OrderBook.replace_order, ho]
    rw [if_pos hinact]
  · intro o info ho hact hinfo hnodup
    have hactne : ¬ (o.active = false) := by rw [hact]; simp
    constructor
    · intro ocol hcol
      have hCond : (lookupA (eraseA c.orders oldId) newId).isSome = true := by
        rw [hcol]; rfl
      simp only [OrderBook.replace_order, ho, if_neg hactne, hinfo]
      rw [if_pos hCond]
      exact ⟨rfl, hcol, lookupA_eraseA_nodup c.orders oldId hnodup, rfl, rfl, rfl⟩
    · intro hnocol
      have hCond : ¬ ((lookupA (eraseA c.orders oldId) newId).isSome = true) := by
        rw [hnocol]; simp
      simp only [OrderBook.replace_order, ho, if_neg hactne, hinfo]
      rw [if_neg hCond]
      refine ⟨rfl, ?_, ?_, rfl, rfl, rfl⟩
      · rw [lookupA_append_none _ _ newId hnocol, lookupA_self]
      · intro hne
        rw [lookupA_append_none _ _ oldId
              (lookupA_eraseA_nodup c.orders oldId hnodup)]
        simp only [lookupA]
        rw [if_neg (fun he => hne he.symm)]

/-- Witness for C6: replacing the live bid order 1 by order 2 with price 110
and quantity 70 inherits side byte 66 and timestamp 0 from the original. -/
theorem C6_replace_order_witness :
    (lookupA execBase.orders 1 = some ⟨1, 100, 50, 66, 0, true⟩ ∧
     lookupA (eraseA execBase.orders 1) 2 = none) ∧
    ((OrderBook.replace_order execBase 1 2 110 70).1 = true ∧
     lookupA (OrderBook.replace_order execBase 1 2 110 70).2.orders 2 =
       some ⟨2, 110, 70, 66, 0, true⟩ ∧
     ((1 : Nat) ≠ 2 →
       lookupA (OrderBook.replace_order execBase 1 2 110 70).2.orders 1 = none) ∧
     (OrderBook.replace_order execBase 1 2 110 70).2.book =
       ((execBase.book.onCancel 1 ⟨Side.Bid, 100, 50, true⟩).1.onAdd 2
         (charSide 66) 110 70).1 ∧
     (OrderBook.replace_order execBase 1 2 110 70).2.events =
       execBase.events ++ [(85, ⟨2, 110, 70, 66, 0, true⟩)] ∧
     (OrderBook.replace_order execBase 1 2 110 70).2.error_stats =
       execBase.error_stats) :=
  ⟨⟨by decide, by decide⟩,
    ((C6_replace_order execBase 1 2 110 70).2.2 ⟨1, 100, 50, 66, 0, true⟩
        ⟨Side.Bid, 100, 50, true⟩ (by decide) (by decide) (by decide)
        (by decide)).2 (by decide)⟩

-- ===========================================================================
-- C8: aggressive match against the opposite side
-- ===========================================================================

/-- The side an aggressive taker consumes. -/
def opposite : Side → Side
  | Side.Bid => Side.Ask
  | Side.Ask => Side.Bid

/-- Levels of one side listed best first: the ask list ascending as stored,
the bid list reversed so the greatest price comes first. -/
def bestFirst : Side → List PriceLevel → List PriceLevel
  | Side.Ask, ls => ls
  | Side.Bid, ls => ls.reverse

/-- Flatten levels (already in best first order) into the maker sequence of
(order id, node quantity, level price) triples, each FIFO head first. -/
def flattenLevels (ls : List PriceLevel) : List (Nat × Nat × Nat) :=
  ls.flatMap (fun lv => lv.fifo.map (fun nd => (nd.order_id, nd.quantity, lv.price)))

/-- Specification of the walk written from the spec text: take
min(node quantity, remaining) from each maker in sequence, stopping when the
remaining quantity is exhausted or the sequence ends. -/
def greedyTake : List (Nat × Nat × Nat) → Nat → List (Nat × Nat × Nat)
  | _, 0 => []
  | [], _ + 1 => []
  | (oid, nq, p) :: rest, q + 1 =>
    (oid, min nq (q + 1), p) :: greedyTake rest (q + 1 - min nq (q + 1))

/-- Sum of the trade quantities of a trade list. -/
def sumTrades (ts : List (Nat × Nat × Nat)) : Nat :=
  (ts.map (fun t => t.2.1)).sum

theorem greedyTake_nil (q : Nat) : greedyTake [] q = [] := by
  cases q <;> rfl

theorem greedyTake_zero (l : List (Nat × Nat × Nat)) : greedyTake l 0 = [] := by
  cases l <;> rfl

theorem greedyTake_cons (oid nq p : Nat) (rest : List (Nat × Nat × Nat))
    (q : Nat) (hq : q ≠ 0) :
    greedyTake ((oid, nq, p) :: rest) q =
      (oid, min nq q, p) :: greedyTake rest (q - min nq q) := by
  cases q with
  | zero => cases hq rfl
  | succ k => rfl

theorem sumTrades_nil : sumTrades [] = 0 := rfl

theorem sumTrades_cons (t : Nat × Nat × Nat) (ts : List (Nat × Nat × Nat)) :
    sumTrades (t :: ts) = t.2.1 + sumTrades ts := by
  simp [sumTrades]

theorem sumTrades_append (a b : List (Nat × Nat × Nat)) :
    sumTrades (a ++ b) = sumTrades a + sumTrades b := by
  simp [sumTrades]

/-- When the inner FIFO walk leaves a node behind, the incoming quantity
has been exhausted. -/
theorem matchFifo_fifo_ne (p : Nat) :
    ∀ (q : Nat) (f : List OrderNode),
      (BookSide.matchFifo p q f).fifo ≠ [] →
      (BookSide.matchFifo p q f).remaining = 0 := by
  intro q f
  induction f generalizing q with
  | nil => intro h; cases h rfl
  | cons nd ns ih =>
    intro hne
    simp only [BookSide.matchFifo] at hne ⊢
    by_cases hq : q = 0
    · rw [if_pos hq]
    · rw [if_neg hq] at hne ⊢
      by_cases hc : nd.quantity - min nd.quantity q = 0
      · rw [if_pos hc] at hne ⊢
        exact ih (q - min nd.quantity q) hne
      · rw [if_neg hc] at hne ⊢
        have : min nd.quantity q = q := by omega
        simp [this]

/-- The filled amount of the inner walk is the sum of its trade
quantities. -/
theorem matchFifo_filled (p : Nat) :
    ∀ (q : Nat) (f : List OrderNode),
      (BookSide.matchFifo p q f).filled =
        sumTrades (BookSide.matchFifo p q f).trades := by
  intro q f
  induction f generalizing q with
  | nil => simp [BookSide.matchFifo, sumTrades]
  | cons nd ns ih =>
    simp only [BookSide.matchFifo]
    by_cases hq : q = 0
    · rw [if_pos hq]; rfl
    · rw [if_neg hq]
      by_cases hc : nd.quantity - min nd.quantity q = 0
      · rw [if_pos hc]
        simp only [sumTrades_cons]
        rw [ih (q - min nd.quantity q)]
      · rw [if_neg hc]
        simp [sumTrades]

/-- The inner FIFO walk produces exactly the greedy prefix of its maker
sequence, with the leftover quantity continuing into any continuation. -/
theorem matchFifo_spec (p : Nat) :
    ∀ (q : Nat) (f : List OrderNode) (X : List (Nat × Nat × Nat)),
      (BookSide.matchFifo p q f).trades ++
          greedyTake X (BookSide.matchFifo p q f).remaining =
        greedyTake (f.map (fun nd => (nd.order_id, nd.quantity, p)) ++ X) q := by
  intro q f
  induction f generalizing q with
  | nil =>
    intro X
    simp [BookSide.matchFifo]
  | cons nd ns ih =>
    intro X
    simp only [BookSide.matchFifo, List.map_cons, List.cons_append]
    by_cases hq : q = 0
    · rw [if_pos hq]
      subst hq
      rw [greedyTake_zero, greedyTake_zero]
      rfl
    · rw [if_neg hq]
      rw [greedyTake_cons nd.order_id nd.quantity p _ q hq]
      by_cases hc : nd.quantity - min nd.quantity q = 0
      · rw [if_pos hc]
        simp only [List.cons_append]
        rw [ih (q - min nd.quantity q) X]
      · rw [if_neg hc]
        have hmin : min nd.quantity q = q := by omega
        simp [hmin, greedyTake_zero]

/-- The filled amount of the level walk is the sum of its trade
quantities. -/
theorem matchLevels_filled :
    ∀ (ls : List PriceLevel) (q : Nat),
      (BookSide.matchLevels q ls).filled =
        sumTrades (BookSide.matchLevels q ls).trades := by
  intro ls
  induction ls with
  | nil => intro q; simp [BookSide.matchLevels, sumTrades]
  | cons lv rest ih =>
    intro q
    simp only [BookSide.matchLevels]
    by_cases hq : q = 0
    · rw [if_pos hq]; rfl
    · rw [if_neg hq]
      by_cases hf : (BookSide.matchFifo lv.price q lv.fifo).fifo.isEmpty = true
      · rw [if_pos hf]
        simp only [sumTrades_append]
        rw [matchFifo_filled lv.price q lv.fifo,
          ih (BookSide.matchFifo lv.price q lv.fifo).remaining]
      · rw [if_neg hf]
        exact matchFifo_filled lv.price q lv.fifo

theorem flattenLevels_cons (lv : PriceLevel) (ls : List PriceLevel) :
    flattenLevels (lv :: ls) =
      lv.fifo.map (fun nd => (nd.order_id, nd.quantity, lv.price)) ++
        flattenLevels ls := by
  simp [flattenLevels]

/-- The level walk produces exactly the greedy prefix of the flattened best
first maker sequence. -/
theorem matchLevels_spec :
    ∀ (ls : List PriceLevel) (q : Nat) (X : List (Nat × Nat × Nat)),
      (BookSide.matchLevels q ls).trades ++
          greedyTake X (BookSide.matchLevels q ls).remaining =
        greedyTake (flattenLevels ls ++ X) q := by
  intro ls
  induction ls with
  | nil =>
    intro q X
    simp [BookSide.matchLevels, flattenLevels]
  | cons lv rest ih =>
    intro q X
    rw [flattenLevels_cons, List.append_assoc]
    simp only [BookSide.matchLevels]
    by_cases hq : q = 0
    · rw [if_pos hq]
      subst hq
      rw [greedyTake_zero, greedyTake_zero]
      rfl
    · rw [if_neg hq]
      by_cases hf : (BookSide.matchFifo lv.price q lv.fifo).fifo.isEmpty = true
      · rw [if_pos hf]
        simp only [List.append_assoc]
        rw [ih (BookSide.matchFifo lv.price q lv.fifo).remaining X]
        exact matchFifo_spec lv.price q lv.fifo (flattenLevels rest ++ X)
      · rw [if_neg hf]
        have hrem : (BookSide.matchFifo lv.price q lv.fifo).remaining = 0 := by
          apply matchFifo_fifo_ne
          intro hcon
          rw [hcon] at hf
          exact hf rfl
        have hsp := matchFifo_spec lv.price q lv.fifo (flattenLevels rest ++ X)
        rw [hrem, greedyTake_zero, List.append_nil] at hsp ⊢
        exact hsp

/-- C8: onAggressive walks the opposite side best price first and each FIFO
head to tail taking min(node quantity, remaining) per maker: the emitted
trades are exactly the greedy prefix of the flattened best first maker
sequence of the opposite side, and the returned filled total equals the sum
of the emitted trade quantities. The trade list is the sole output: the
engine has no observer and the events list of any Core is untouched by it. -/
theorem C8_onAggressive (e : OrderBookEngine) (ts : Side) (q : Nat) :
    (e.onAggressive ts q).2.1 =
      greedyTake (flattenLevels (bestFirst (opposite ts)
        (sideLevels e (opposite ts)))) q ∧
    (e.onAggressive ts q).1 = sumTrades (e.onAggressive ts q).2.1 := by
  cases ts with
  | Bid =>
    simp only [OrderBookEngine.onAggressive, BookSide.matchAtBest, opposite,
      bestFirst, sideLevels]
    constructor
    · have hsp := matchLevels_spec e.asks q []
      rw [greedyTake_nil, List.append_nil, List.append_nil] at hsp
      exact hsp
    · exact matchLevels_filled e.asks q
  | Ask =>
    simp only [OrderBookEngine.onAggressive, BookSide.matchAtBest, opposite,
      bestFirst, sideLevels]
    constructor
    · have hsp := matchLevels_spec e.bids.reverse q []
      rw [greedyTake_nil, List.append_nil, List.append_nil] at hsp
      exact hsp
    · exact matchLevels_filled e.bids.reverse q

-- ===========================================================================
-- C9: price level invariant
-- ===========================================================================

/-- The invariant of the claim: every reachable level has a non empty FIFO
and a positive aggregate equal to the sum of its node quantities. -/
def levelsWF (ls : List PriceLevel) : Prop :=
  ∀ lv ∈ ls, lv.fifo ≠ [] ∧ lv.total_qty = sumQty lv.fifo ∧ 0 < lv.total_qty

instance : DecidablePred levelsWF := fun ls => by
  unfold levelsWF; infer_instance

/-- Strengthened induction invariant: additionally every node quantity is
positive. -/
def levelsStrong (ls : List PriceLevel) : Prop :=
  ∀ lv ∈ ls, lv.fifo ≠ [] ∧ lv.total_qty = sumQty lv.fifo ∧
    ∀ nd ∈ lv.fifo, 0 < nd.quantity

theorem sumQty_pos (f : List OrderNode) (hne : f ≠ [])
    (hpos : ∀ nd ∈ f, 0 < nd.quantity) : 0 < sumQty f := by
  cases f with
  | nil => cases hne rfl
  | cons a l =>
    rw [sumQty_cons]
    have := hpos a (List.mem_cons_self a l)
    omega

theorem levelsStrong_WF (ls : List PriceLevel) (h : levelsStrong ls) :
    levelsWF ls := by
  intro lv hm
  obtain ⟨h1, h2, h3⟩ := h lv hm
  exact ⟨h1, h2, h2 ▸ sumQty_pos lv.fifo h1 h3⟩

/-- The operations of the claim at the book side level: add, cancel,
execute (updateQuantity as driven by onExecute) and aggressive match. -/
inductive EngOp where
  | add (s : Side) (oid price qty : Nat)
  | cancel (s : Side) (oid price : Nat)
  | exec (s : Side) (oid price newq : Nat)
  | aggress (ts : Side) (q : Nat)
deriving DecidableEq

/-- Apply one operation to the two sided engine. -/
def applyEngOp (e : OrderBookEngine) : EngOp → OrderBookEngine
  | EngOp.add s oid price qty =>
    match s with
    | Side.Bid => { e with bids := BookSide.addOrder e.bids oid price qty }
    | Side.Ask => { e with asks := BookSide.addOrder e.asks oid price qty }
  | EngOp.cancel s oid price =>
    match s with
    | Side.Bid => { e with bids := BookSide.cancelOrder e.bids oid price }
    | Side.Ask => { e with asks := BookSide.cancelOrder e.asks oid price }
  | EngOp.exec s oid price newq =>
    match s with
    | Side.Bid => { e with bids := BookSide.updateQuantity e.bids oid price newq }
    | Side.Ask => { e with asks := BookSide.updateQuantity e.asks oid price newq }
  | EngOp.aggress ts q => (e.onAggressive ts q).2.2

/-- Fold a sequence of operations over the empty engine. -/
def applyEngOps (e : OrderBookEngine) (ops : List EngOp) : OrderBookEngine :=
  ops.foldl applyEngOp e

/-- Adds of positive quantity; every other operation is unrestricted. -/
def opOK : EngOp → Prop
  | EngOp.add _ _ _ qty => 0 < qty
  | _ => True

instance : DecidablePred opOK := fun op => by
  cases op <;> (unfold opOK; infer_instance)

theorem addOrder_strong (ls : List PriceLevel) (oid price qty : Nat)
    (h : levelsStrong ls) (hq : 0 < qty) :
    levelsStrong (BookSide.addOrder ls oid price qty) := by
  induction ls with
  | nil =>
    intro lv hm
    simp only [BookSide.addOrder, List.mem_singleton] at hm
    subst hm
    refine ⟨by simp, by simp [sumQty], ?_⟩
    intro nd hnd
    simp only [List.mem_singleton] at hnd
    subst hnd
    exact hq
  | cons lv1 rest ih =>
    have h1 := h lv1 (List.mem_cons_self lv1 rest)
    have hrest : levelsStrong rest := fun lv hm => h lv (List.mem_cons_of_mem lv1 hm)
    intro lv hm
    simp only [BookSide.addOrder] at hm
    by_cases hlt : price < lv1.price
    · rw [if_pos hlt] at hm
      rcases List.mem_cons.mp hm with hm | hm
      · subst hm
        refine ⟨by simp, by simp [sumQty], ?_⟩
        intro nd hnd
        simp only [List.mem_singleton] at hnd
        subst hnd
        exact hq
      · rcases List.mem_cons.mp hm with hm | hm
        · subst hm; exact h1
        · exact hrest lv hm
    · rw [if_neg hlt] at hm
      by_cases heq : price = lv1.price
      · rw [if_pos heq] at hm
        rcases List.mem_cons.mp hm with hm | hm
        · subst hm
          dsimp only
          refine ⟨by simp, ?_, ?_⟩
          · rw [sumQty_append, sumQty_cons, sumQty_nil]
            dsimp only
            have := h1.2.1
            omega
          · intro nd hnd
            rw [List.mem_append] at hnd
            rcases hnd with hnd | hnd
            · exact h1.2.2 nd hnd
            · simp only [List.mem_singleton] at hnd
              subst hnd
              exact hq
        · exact hrest lv hm
      · rw [if_neg heq] at hm
        rcases List.mem_cons.mp hm with hm | hm
        · subst hm; exact h1
        · exact ih hrest lv hm

theorem removeNode_subset (oid : Nat) (f : List OrderNode) (nd : OrderNode)
    (f2 : List OrderNode) (h : removeNode oid f = some (nd, f2)) :
    ∀ x ∈ f2, x ∈ f := by
  induction f generalizing f2 with
  | nil => cases h
  | cons a rest ih =>
    simp only [removeNode] at h
    by_cases ha : a.order_id = oid
    · rw [if_pos ha] at h
      cases h
      intro x hx
      exact List.mem_cons_of_mem _ hx
    · rw [if_neg ha] at h
      cases hr : removeNode oid rest with
      | none => rw [hr] at h; cases h
      | some pr =>
        obtain ⟨m, ns2⟩ := pr
        rw [hr] at h
        cases h
        intro x hx
        rcases List.mem_cons.mp hx with hx | hx
        · subst hx
          exact List.mem_cons_self _ _
        · exact List.mem_cons_of_mem _ (ih ns2 hr x hx)

theorem cancelOrder_strong (ls : List PriceLevel) (oid price : Nat)
    (h : levelsStrong ls) :
    levelsStrong (BookSide.cancelOrder ls oid price) := by
  induction ls with
  | nil => intro lv hm; cases hm
  | cons lv1 rest ih =>
    have h1 := h lv1 (List.mem_cons_self lv1 rest)
    have hrest : levelsStrong rest := fun lv hm => h lv (List.mem_cons_of_mem lv1 hm)
    intro lv hm
    simp only [BookSide.cancelOrder] at hm
    by_cases hp : lv1.price = price
    · rw [if_pos hp] at hm
      cases hr : removeNode oid lv1.fifo with
      | none =>
        simp only [hr] at hm
        rcases List.mem_cons.mp hm with hm | hm
        · subst hm; exact h1
        · exact hrest lv hm
      | some pr =>
        obtain ⟨nd, f2⟩ := pr
        simp only [hr] at hm
        by_cases hf : f2.isEmpty = true
        · rw [if_pos hf] at hm
          exact hrest lv hm
        · rw [if_neg hf] at hm
          rcases List.mem_cons.mp hm with hm | hm
          · subst hm
            dsimp only
            have hs := removeNode_sum oid lv1.fifo nd f2 hr
            refine ⟨?_, ?_, ?_⟩
            · intro hcon
              rw [hcon] at hf
              exact hf rfl
            · have := h1.2.1
              omega
            · intro x hx
              exact h1.2.2 x (removeNode_subset oid lv1.fifo nd f2 hr x hx)
          · exact hrest lv hm
    · rw [if_neg hp] at hm
      rcases List.mem_cons.mp hm with hm | hm
      · subst hm; exact h1
      · exact ih hrest lv hm

theorem setNodeQty_sum (oid newq : Nat) (f : List OrderNode) (nd : OrderNode)
    (f2 : List OrderNode) (h : removeNode oid f = some (nd, f2)) :
    sumQty (setNodeQty oid newq f) + nd.quantity = sumQty f + newq := by
  induction f generalizing f2 with
  | nil => cases h
  | cons a rest ih =>
    simp only [removeNode, setNodeQty] at h ⊢
    by_cases ha : a.order_id = oid
    · rw [if_pos ha] at h
      cases h
      rw [if_pos ha, sumQty_cons, sumQty_cons]
      dsimp only
      omega
    · rw [if_neg ha] at h
      rw [if_neg ha]
      cases hr : removeNode oid rest with
      | none => rw [hr] at h; cases h
      | some pr =>
        obtain ⟨m, ns2⟩ := pr
        rw [hr] at h
        cases h
        rw [sumQty_cons, sumQty_cons]
        have := ih ns2 hr
        omega

theorem setNodeQty_ne_nil (oid newq : Nat) (f : List OrderNode)
    (h : f ≠ []) : setNodeQty oid newq f ≠ [] := by
  cases f with
  | nil => cases h rfl
  | cons a rest =>
    simp only [setNodeQty]
    by_cases ha : a.order_id = oid
    · rw [if_pos ha]; simp
    · rw [if_neg ha]; simp

theorem setNodeQty_pos (oid newq : Nat) (f : List OrderNode)
    (hpos : ∀ nd ∈ f, 0 < nd.quantity) (hq : 0 < newq) :
    ∀ x ∈ setNodeQty oid newq f, 0 < x.quantity := by
  induction f with
  | nil => intro x hx; cases hx
  | cons a rest ih =>
    intro x hx
    simp only [setNodeQty] at hx
    by_cases ha : a.order_id = oid
    · rw [if_pos ha] at hx
      rcases List.mem_cons.mp hx with hx | hx
      · subst hx; exact hq
      · exact hpos x (List.mem_cons_of_mem a hx)
    · rw [if_neg ha] at hx
      rcases List.mem_cons.mp hx with hx | hx
      · subst hx; exact hpos x (List.mem_cons_self x rest)
      · exact ih (fun nd hnd => hpos nd (List.mem_cons_of_mem a hnd)) x hx

theorem updateQuantity_strong (ls : List PriceLevel) (oid price newq : Nat)
    (h : levelsStrong ls) :
    levelsStrong (BookSide.updateQuantity ls oid price newq) := by
  induction ls with
  | nil => intro lv hm; cases hm
  | cons lv1 rest ih =>
    have h1 := h lv1 (List.mem_cons_self lv1 rest)
    have hrest : levelsStrong rest := fun lv hm => h lv (List.mem_cons_of_mem lv1 hm)
    intro lv hm
    simp only [BookSide.updateQuantity] at hm
    by_cases hp : lv1.price = price
    · rw [if_pos hp] at hm
      cases hr : removeNode oid lv1.fifo with
      | none =>
        simp only [hr] at hm
        rcases List.mem_cons.mp hm with hm | hm
        · subst hm; exact h1
        · exact hrest lv hm
      | some pr =>
        obtain ⟨nd, f2⟩ := pr
        simp only [hr] at hm
        by_cases hz : newq = 0
        · rw [if_pos hz] at hm
          by_cases hf : f2.isEmpty = true
          · rw [if_pos hf] at hm
            exact hrest lv hm
          · rw [if_neg hf] at hm
            rcases List.mem_cons.mp hm with hm | hm
            · subst hm
              dsimp only
              have hs := removeNode_sum oid lv1.fifo nd f2 hr
              refine ⟨?_, ?_, ?_⟩
              · intro hcon
                rw [hcon] at hf
                exact hf rfl
              · have := h1.2.1
                omega
              · intro x hx
                exact h1.2.2 x (removeNode_subset oid lv1.fifo nd f2 hr x hx)
            · exact hrest lv hm
        · rw [if_neg hz] at hm
          rcases List.mem_cons.mp hm with hm | hm
          · subst hm
            dsimp only
            have hs := setNodeQty_sum oid newq lv1.fifo nd f2 hr
            have hndle := removeNode_le_sum oid lv1.fifo nd f2 hr
            refine ⟨?_, ?_, ?_⟩
            · exact setNodeQty_ne_nil oid newq lv1.fifo h1.1
            · have := h1.2.1
              omega
            · exact setNodeQty_pos oid newq lv1.fifo h1.2.2 (by omega)
          · exact hrest lv hm
    · rw [if_neg hp] at hm
      rcases List.mem_cons.mp hm with hm | hm
      · subst hm; exact h1
      · exact ih hrest lv hm

theorem matchFifo_sum (p : Nat) :
    ∀ (q : Nat) (f : List OrderNode),
      sumQty (BookSide.matchFifo p q f).fifo +
        (BookSide.matchFifo p q f).filled = sumQty f := by
  intro q f
  induction f generalizing q with
  | nil => simp [BookSide.matchFifo, sumQty]
  | cons nd ns ih =>
    simp only [BookSide.matchFifo]
    by_cases hq : q = 0
    · rw [if_pos hq]
      rfl
    · rw [if_neg hq]
      by_cases hc : nd.quantity - min nd.quantity q = 0
      · rw [if_pos hc]
        dsimp only
        have := ih (q - min nd.quantity q)
        rw [sumQty_cons]
        omega
      · rw [if_neg hc]
        dsimp only
        rw [sumQty_cons, sumQty_cons]
        dsimp only
        omega

theorem matchFifo_pos (p : Nat) :
    ∀ (q : Nat) (f : List OrderNode),
      (∀ nd ∈ f, 0 < nd.quantity) →
      ∀ x ∈ (BookSide.matchFifo p q f).fifo, 0 < x.quantity := by
  intro q f
  induction f generalizing q with
  | nil => intro _ x hx; simp [BookSide.matchFifo] at hx
  | cons nd ns ih =>
    intro hp x hx
    simp only [BookSide.matchFifo] at hx
    by_cases hq : q = 0
    · rw [if_pos hq] at hx
      exact hp x hx
    · rw [if_neg hq] at hx
      by_cases hc : nd.quantity - min nd.quantity q = 0
      · rw [if_pos hc] at hx
        exact ih (q - min nd.quantity q)
          (fun y hy => hp y (List.mem_cons_of_mem nd hy)) x hx
      · rw [if_neg hc] at hx
        dsimp only at hx
        rcases List.mem_cons.mp hx with hx | hx
        · subst hx
          dsimp only
          omega
        · exact hp x (List.mem_cons_of_mem nd hx)

theorem matchLevels_strong :
    ∀ (ls : List PriceLevel) (q : Nat), levelsStrong ls →
      levelsStrong (BookSide.matchLevels q ls).levels := by
  intro ls
  induction ls with
  | nil => intro q h; simpa [BookSide.matchLevels] using h
  | cons lv rest ih =>
    intro q h
    have h1 := h lv (List.mem_cons_self lv rest)
    have hrest : levelsStrong rest := fun x hm => h x (List.mem_cons_of_mem lv hm)
    simp only [BookSide.matchLevels]
    by_cases hq : q = 0
    · rw [if_pos hq]
      exact h
    · rw [if_neg hq]
      by_cases hf : (BookSide.matchFifo lv.price q lv.fifo).fifo.isEmpty = true
      · rw [if_pos hf]
        exact ih (BookSide.matchFifo lv.price q lv.fifo).remaining hrest
      · rw [if_neg hf]
        intro x hm
        rcases List.mem_cons.mp hm with hm | hm
        · subst hm
          dsimp only
          have hsum := matchFifo_sum lv.price q lv.fifo
          refine ⟨?_, ?_, ?_⟩
          · intro hcon
            rw [hcon] at hf
            exact hf rfl
          · have := h1.2.1
            omega
          · exact matchFifo_pos lv.price q lv.fifo h1.2.2
        · exact hrest x hm

theorem levelsStrong_reverse (ls : List PriceLevel) (h : levelsStrong ls) :
    levelsStrong ls.reverse := by
  intro lv hm
  exact h lv (List.mem_reverse.mp hm)

theorem matchAtBest_strong (s : Side) (ls : List PriceLevel) (q : Nat)
    (h : levelsStrong ls) :
    levelsStrong (BookSide.matchAtBest s ls q).levels := by
  cases s with
  | Ask => exact matchLevels_strong ls q h
  | Bid =>
    simp only [BookSide.matchAtBest]
    exact levelsStrong_reverse _
      (matchLevels_strong ls.reverse q (levelsStrong_reverse ls h))

theorem applyEngOp_strong (e : OrderBookEngine) (op : EngOp)
    (hb : levelsStrong e.bids) (ha : levelsStrong e.asks) (hop : opOK op) :
    levelsStrong (applyEngOp e op).bids ∧ levelsStrong (applyEngOp e op).asks := by
  cases op with
  | add s oid price qty =>
    cases s with
    | Bid => exact ⟨addOrder_strong e.bids oid price qty hb hop, ha⟩
    | Ask => exact ⟨hb, addOrder_strong e.asks oid price qty ha hop⟩
  | cancel s oid price =>
    cases s with
    | Bid => exact ⟨cancelOrder_strong e.bids oid price hb, ha⟩
    | Ask => exact ⟨hb, cancelOrder_strong e.asks oid price ha⟩
  | exec s oid price newq =>
    cases s with
    | Bid => exact ⟨updateQuantity_strong e.bids oid price newq hb, ha⟩
    | Ask => exact ⟨hb, updateQuantity_strong e.asks oid price newq ha⟩
  | aggress ts q =>
    cases ts with
    | Bid =>
      exact ⟨hb, matchAtBest_strong Side.Ask e.asks q ha⟩
    | Ask =>
      exact ⟨matchAtBest_strong Side.Bid e.bids q hb, ha⟩

theorem applyEngOps_strong (ops : List EngOp) :
    ∀ (e : OrderBookEngine), levelsStrong e.bids → levelsStrong e.asks →
      (∀ op ∈ ops, opOK op) →
      levelsStrong (applyEngOps e ops).bids ∧
        levelsStrong (applyEngOps e ops).asks := by
  induction ops with
  | nil => intro e hb ha _; exact ⟨hb, ha⟩
  | cons op rest ih =>
    intro e hb ha hok
    have hstep := applyEngOp_strong e op hb ha (hok op (List.mem_cons_self op rest))
    exact ih (applyEngOp e op) hstep.1 hstep.2
      (fun x hm => hok x (List.mem_cons_of_mem op hm))

/-- C9 (amended): after any sequence of add, cancel, execute and aggressive
match operations in which every add carries a positive quantity, every
price level reachable from either side has a non empty FIFO and an
aggregate equal to the sum of its node quantities and strictly positive.
(The positivity clause needs the restriction: a zero quantity add creates a
level whose aggregate is zero, see the counterexample.) -/
theorem C9_level_invariant (ops : List EngOp)
    (h : ∀ op ∈ ops, opOK op) :
    levelsWF (applyEngOps ⟨[], []⟩ ops).bids ∧
      levelsWF (applyEngOps ⟨[], []⟩ ops).asks := by
  have hs := applyEngOps_strong ops ⟨[], []⟩
    (fun lv hm => by cases hm) (fun lv hm => by cases hm) h
  exact ⟨levelsStrong_WF _ hs.1, levelsStrong_WF _ hs.2⟩

/-- Witness for C9: a concrete mixed sequence of the four operations keeps
both sides well formed. -/
theorem C9_level_invariant_witness :
    (∀ op ∈ [EngOp.add Side.Bid 1 100 5, EngOp.add Side.Bid 2 100 7,
        EngOp.add Side.Ask 3 110 4, EngOp.exec Side.Bid 1 100 3,
        EngOp.aggress Side.Bid 2, EngOp.cancel Side.Bid 2 100], opOK op) ∧
    (levelsWF (applyEngOps ⟨[], []⟩
        [EngOp.add Side.Bid 1 100 5, EngOp.add Side.Bid 2 100 7,
         EngOp.add Side.Ask 3 110 4, EngOp.exec Side.Bid 1 100 3,
         EngOp.aggress Side.Bid 2, EngOp.cancel Side.Bid 2 100]).bids ∧
     levelsWF (applyEngOps ⟨[], []⟩
        [EngOp.add Side.Bid 1 100 5, EngOp.add Side.Bid 2 100 7,
         EngOp.add Side.Ask 3 110 4, EngOp.exec Side.Bid 1 100 3,
         EngOp.aggress Side.Bid 2, EngOp.cancel Side.Bid 2 100]).asks) :=
  ⟨by decide, C9_level_invariant _ (by decide)⟩

/-- Counterexample for C9 as stated: an add of quantity zero creates a bid
level whose aggregate quantity is zero, so the invariant fails without the
positive quantity restriction. -/
theorem C9_counterexample :
    ¬ levelsWF (applyEngOps ⟨[], []⟩ [EngOp.add Side.Bid 1 100 0]).bids := by
  decide

-- ===========================================================================
-- Parse loop lemmas for C3 and C4
-- ===========================================================================

theorem get_itch_le_36 (b : Nat) : get_itch_message_length b ≤ 36 := by
  unfold get_itch_message_length
  split
  · omega
  · split
    · omega
    · split
      · omega
      · split <;> omega

/-- A known type byte with too few bytes yields no parse. -/
theorem parse_none_short (buf : List Nat)
    (hne : get_itch_message_length (buf.getD 0 0) ≠ 0)
    (hlen : buf.length < get_itch_message_length (buf.getD 0 0)) :
    ITCHParser.parse_one buf = none := by
  unfold ITCHParser.parse_one
  by_cases h0 : buf.length = 0
  · rw [if_pos h0]
  · rw [if_neg h0, if_neg hne, if_pos hlen]

/-- An unknown first byte yields no parse. -/
theorem parse_one_unknown (buf : List Nat)
    (hz : get_itch_message_length (buf.getD 0 0) = 0) :
    ITCHParser.parse_one buf = none := by
  unfold ITCHParser.parse_one
  by_cases h0 : buf.length = 0
  · rw [if_pos h0]
  · rw [if_neg h0, if_pos hz]

/-- A failed parse on a known nonempty buffer means too few bytes. -/
theorem parse_one_none_short (buf : List Nat) (hne : buf ≠ [])
    (hz : get_itch_message_length (buf.getD 0 0) ≠ 0)
    (h : ITCHParser.parse_one buf = none) :
    buf.length < get_itch_message_length (buf.getD 0 0) := by
  by_contra hlen
  unfold ITCHParser.parse_one at h
  have h0 : ¬ buf.length = 0 := by
    cases buf with
    | nil => cases hne rfl
    | cons a l => simp
  rw [if_neg h0, if_neg hz, if_neg hlen] at h
  by_cases h65 : buf.getD 0 0 = 65
  · rw [if_pos h65] at h; cases h
  · rw [if_neg h65] at h
    by_cases h88 : buf.getD 0 0 = 88
    · rw [if_pos h88] at h; cases h
    · rw [if_neg h88] at h
      by_cases h69 : buf.getD 0 0 = 69
      · rw [if_pos h69] at h; cases h
      · rw [if_neg h69] at h
        by_cases h85 : buf.getD 0 0 = 85
        · rw [if_pos h85] at h; cases h
        · refine hz ?_
          unfold get_itch_message_length
          rw [if_neg h65, if_neg h88, if_neg h69, if_neg h85]

theorem Blocked_length (buf : List Nat) (h : Blocked buf) : buf.length ≤ 35 := by
  rcases h with h | ⟨h1, h2⟩
  · subst h; simp
  · have := get_itch_le_36 (buf.getD 0 0)
    omega

/-- The parse loop result does not depend on the fuel once the fuel covers
the buffer length. -/
theorem parseLoop_fuel :
    ∀ (n m : Nat) (buf : List Nat) (c : Core), buf.length ≤ n →
      buf.length ≤ m →
      OrderBook.parseLoop n buf c = OrderBook.parseLoop m buf c := by
  intro n
  induction n with
  | zero =>
    intro m buf c hn _
    have : buf = [] := List.length_eq_zero.mp (by omega)
    subst this
    cases m with
    | zero => rfl
    | succ k => rfl
  | succ k ih =>
    intro m buf c hn hm
    cases m with
    | zero =>
      have : buf = [] := List.length_eq_zero.mp (by omega)
      subst this
      rfl
    | succ j =>
      simp only [OrderBook.parseLoop]
      cases hp : ITCHParser.parse_one buf with
      | some r =>
        obtain ⟨hv, hpos, hle⟩ := parse_one_some buf r hp
        dsimp only
        by_cases hg : r.valid = false ∨ r.bytes_consumed = 0
        · rw [if_pos hg, if_pos hg]
        · rw [if_neg hg, if_neg hg]
          apply ih
          · simp only [List.length_drop]; omega
          · simp only [List.length_drop]; omega
      | none =>
        cases buf with
        | nil => rfl
        | cons b rest =>
          dsimp only
          by_cases hz : get_itch_message_length b = 0
          · rw [if_pos hz, if_pos hz]
            apply ih
            · simp only [List.length_cons] at hn; omega
            · simp only [List.length_cons] at hm; omega
          · rw [if_neg hz, if_neg hz]

/-- A blocked buffer makes one loop round return at once: unchanged buffer
and, when the buffer is nonempty, one extra incomplete message. -/
theorem parseLoop_blocked (buf : List Nat) (c : Core) (fuel : Nat)
    (hb : Blocked buf) (hfuel : buf.length ≤ fuel) :
    OrderBook.parseLoop fuel buf c =
      (buf, if buf = [] then c
            else { c with error_stats := { c.error_stats with
              incomplete_messages := c.error_stats.incomplete_messages + 1 } }) := by
  rcases hb with hnil | ⟨h1, h2⟩
  · subst hnil
    rw [if_pos rfl]
    cases fuel with
    | zero => rfl
    | succ k => rfl
  · have hne : buf ≠ [] := by
      intro hcon
      rw [hcon] at h1
      exact h1 (by simp [get_itch_message_length])
    rw [if_neg hne]
    cases fuel with
    | zero =>
      exfalso
      have : buf = [] := List.length_eq_zero.mp (by omega)
      exact hne this
    | succ k =>
      simp only [OrderBook.parseLoop, parse_none_short buf h1 h2]
      cases buf with
      | nil => cases hne rfl
      | cons b rest =>
        dsimp only
        have h1b : ¬ get_itch_message_length b = 0 := by simpa using h1
        rw [if_neg h1b]

/-- The loop always stops on a blocked buffer. -/
theorem parseLoop_out_blocked :
    ∀ (fuel : Nat) (buf : List Nat) (c : Core), buf.length ≤ fuel →
      Blocked (OrderBook.parseLoop fuel buf c).1 := by
  intro fuel
  induction fuel with
  | zero =>
    intro buf c h
    have : buf = [] := List.length_eq_zero.mp (by omega)
    subst this
    exact Or.inl rfl
  | succ k ih =>
    intro buf c h
    simp only [OrderBook.parseLoop]
    cases hp : ITCHParser.parse_one buf with
    | some r =>
      obtain ⟨hv, hpos, hle⟩ := parse_one_some buf r hp
      dsimp only
      by_cases hg : r.valid = false ∨ r.bytes_consumed = 0
      · rcases hg with hg | hg
        · rw [hv] at hg; cases hg
        · omega
      · rw [if_neg hg]
        apply ih
        simp only [List.length_drop]; omega
    | none =>
      cases buf with
      | nil => exact Or.inl rfl
      | cons b rest =>
        dsimp only
        by_cases hz : get_itch_message_length b = 0
        · rw [if_pos hz]
          apply ih
          simp only [List.length_cons] at h; omega
        · rw [if_neg hz]
          refine Or.inr ⟨by simpa using hz, ?_⟩
          exact parse_one_none_short (b :: rest) (by simp) (by simpa using hz) hp

theorem drainGo_fifo (l : List (List Nat)) :
    ∀ f : DataFabric, (OrderBook.drainGo l f).1.fifo = f.fifo := by
  induction l with
  | nil => intro f; rfl
  | cons ch rest ih => intro f; exact ih _

/-- Draining an empty fabric queue changes nothing and yields no bytes. -/
theorem drainAll_empty (f : DataFabric) (h : f.fifo = []) :
    OrderBook.drainAll f = (f, []) := by
  unfold OrderBook.drainAll
  rw [h]
  have : ({ f with fifo := [] } : DataFabric) = f := by
    cases f
    simp_all
  rw [this]
  rfl

theorem process_fabric_fifo (s : OrderBookSys) :
    (OrderBook.process s).fabric.fifo = [] := by
  unfold OrderBook.process
  by_cases h : MAX_BUFFER_SIZE < (s.message_buffer ++ (OrderBook.drainAll s.fabric).2).length
  · rw [if_pos h]
    simpa [OrderBook.drainAll] using drainGo_fifo s.fabric.fifo _
  · rw [if_neg h]
    simpa [OrderBook.drainAll] using drainGo_fifo s.fabric.fifo _

theorem process_buffer_blocked (s : OrderBookSys) :
    Blocked (OrderBook.process s).message_buffer := by
  unfold OrderBook.process
  by_cases h : MAX_BUFFER_SIZE < (s.message_buffer ++ (OrderBook.drainAll s.fabric).2).length
  · rw [if_pos h]
    exact Or.inl rfl
  · rw [if_neg h]
    exact parseLoop_out_blocked _ _ _ (le_refl _)

-- ===========================================================================
-- C4: process on an undisturbed system
-- ===========================================================================

/-- C4 (amended): with no intervening write, a second process() call leaves
the fabric, the reassembly buffer, the orders, the book and the observer
events unchanged, but when the buffer still holds a partial frame it
increments incomplete_messages once more; only an empty residual buffer
makes the call a true no op. -/
theorem C4_second_process (s : OrderBookSys) :
    OrderBook.process (OrderBook.process s) =
      (if (OrderBook.process s).message_buffer = [] then OrderBook.process s
       else { OrderBook.process s with core := { (OrderBook.process s).core with
         error_stats := { (OrderBook.process s).core.error_stats with
           incomplete_messages :=
             (OrderBook.process s).core.error_stats.incomplete_messages + 1 } } }) := by
  have hfifo := process_fabric_fifo s
  have hblocked := process_buffer_blocked s
  have hlen := Blocked_length _ hblocked
  set s1 := OrderBook.process s with hs1
  unfold OrderBook.process
  rw [drainAll_empty s1.fabric hfifo]
  simp only [List.append_nil]
  rw [if_neg (show ¬ MAX_BUFFER_SIZE < s1.message_buffer.length by
    unfold MAX_BUFFER_SIZE; omega)]
  unfold runParse
  rw [parseLoop_blocked s1.message_buffer s1.core _ hblocked (le_refl _)]
  by_cases hbuf : s1.message_buffer = []
  · rw [if_pos hbuf, if_pos hbuf]
  · rw [if_neg hbuf, if_neg hbuf]

/-- Counterexample for C4 as stated: after feeding the single byte 65 (a
truncated Add) and processing once, a second process() call changes the
state: incomplete_messages is incremented again. -/
theorem C4_counterexample :
    OrderBook.process (OrderBook.process
        (OrderBookSys.write (OrderBookSys.init 4096) [65])) ≠
      OrderBook.process (OrderBookSys.write (OrderBookSys.init 4096) [65]) := by
  decide

-- ===========================================================================
-- Scrub congruence: the incomplete message counter feeds nothing back
-- ===========================================================================

theorem add_order_scrub (c : Core) (o : OrderR) :
    OrderBook.add_order (scrub c) o =
      ((OrderBook.add_order c o).1, scrub (OrderBook.add_order c o).2) := by
  obtain ⟨ords, infos, bk, ⟨u, bo, inc, inv⟩, evs⟩ := c
  unfold OrderBook.add_order scrub
  dsimp only
  by_cases h : (lookupA ords o.order_id).isSome = true
  · rw [if_pos h, if_pos h]
  · rw [if_neg h, if_neg h]

theorem cancel_order_scrub (c : Core) (order_id : Nat) :
    OrderBook.cancel_order (scrub c) order_id =
      ((OrderBook.cancel_order c order_id).1,
        scrub (OrderBook.cancel_order c order_id).2) := by
  obtain ⟨ords, infos, bk, ⟨u, bo, inc, inv⟩, evs⟩ := c
  unfold OrderBook.cancel_order scrub
  dsimp only
  cases ho : lookupA ords order_id with
  | none => rfl
  | some ord =>
    cases hi : lookupA infos order_id with
    | none => rfl
    | some info => rfl

theorem execute_order_scrub (c : Core) (order_id quantity : Nat) :
    OrderBook.execute_order (scrub c) order_id quantity =
      ((OrderBook.execute_order c order_id quantity).1,
        scrub (OrderBook.execute_order c order_id quantity).2) := by
  obtain ⟨ords, infos, bk, ⟨u, bo, inc, inv⟩, evs⟩ := c
  unfold OrderBook.execute_order scrub
  dsimp only
  cases ho : lookupA ords order_id with
  | none => rfl
  | some ord =>
    dsimp only
    by_cases hcond : ord.active = false ∨ ord.quantity < quantity
    · rw [if_pos hcond, if_pos hcond]
    · rw [if_neg hcond, if_neg hcond]
      by_cases hfull : ord.quantity - quantity = 0
      · simp only [if_pos hfull]
        cases hi : lookupA infos order_id with
        | none => rfl
        | some info => rfl
      · simp only [if_neg hfull]
        cases hi : lookupA infos order_id with
        | none => rfl
        | some info => rfl

theorem replace_order_scrub (c : Core)
    (old_order_id new_order_id new_price new_quantity : Nat) :
    OrderBook.replace_order (scrub c) old_order_id new_order_id new_price
        new_quantity =
      ((OrderBook.replace_order c old_order_id new_order_id new_price
          new_quantity).1,
        scrub (OrderBook.replace_order c old_order_id new_order_id new_price
          new_quantity).2) := by
  obtain ⟨ords, infos, bk, ⟨u, bo, inc, inv⟩, evs⟩ := c
  unfold OrderBook.replace_order scrub
  dsimp only
  cases ho : lookupA ords old_order_id with
  | none => rfl
  | some ord =>
    dsimp only
    by_cases hact : ord.active = false
    · rw [if_pos hact, if_pos hact]
    · rw [if_neg hact, if_neg hact]
      cases hi : lookupA infos old_order_id with
      | none =>
        dsimp only
        by_cases hcol : (lookupA (eraseA ords old_order_id)
            new_order_id).isSome = true
        · rw [if_pos hcol, if_pos hcol]
        · rw [if_neg hcol, if_neg hcol]
      | some info =>
        dsimp only
        by_cases hcol : (lookupA (eraseA ords old_order_id)
            new_order_id).isSome = true
        · rw [if_pos hcol, if_pos hcol]
        · rw [if_neg hcol, if_neg hcol]

theorem handle_message_scrub (c : Core) (r : ParseResult) :
    OrderBook.handle_message (scrub c) r = scrub (OrderBook.handle_message c r) := by
  unfold OrderBook.handle_message
  by_cases h65 : r.type = 65
  · rw [if_pos h65, if_pos h65, add_order_scrub]
  · rw [if_neg h65, if_neg h65]
    by_cases h88 : r.type = 88
    · rw [if_pos h88, if_pos h88, cancel_order_scrub]
    · rw [if_neg h88, if_neg h88]
      by_cases h69 : r.type = 69
      · rw [if_pos h69, if_pos h69, execute_order_scrub]
      · rw [if_neg h69, if_neg h69]
        by_cases h85 : r.type = 85
        · rw [if_pos h85, if_pos h85, replace_order_scrub]
        · rw [if_neg h85, if_neg h85]

/-- Scrub equality is equality of every component except the incomplete
message counter. -/
theorem scrub_eq_iff (c c' : Core) :
    scrub c = scrub c' ↔
      (c.orders = c'.orders ∧ c.order_info = c'.order_info ∧
       c.book = c'.book ∧ c.events = c'.events ∧
       c.error_stats.unknown_message_types =
         c'.error_stats.unknown_message_types ∧
       c.error_stats.buffer_overflows = c'.error_stats.buffer_overflows ∧
       c.error_stats.invalid_operations = c'.error_stats.invalid_operations) := by
  obtain ⟨o1, i1, b1, ⟨u1, bo1, inc1, inv1⟩, e1⟩ := c
  obtain ⟨o2, i2, b2, ⟨u2, bo2, inc2, inv2⟩, e2⟩ := c'
  unfold scrub
  simp only [Core.mk.injEq, ErrorStats.mk.injEq]
  tauto

/-- The parse loop started from two cores that agree outside the incomplete
counter returns the same residual buffer and cores that again agree outside
the incomplete counter. -/
theorem parseLoop_scrub :
    ∀ (fuel : Nat) (buf : List Nat) (c c' : Core), scrub c = scrub c' →
      (OrderBook.parseLoop fuel buf c).1 = (OrderBook.parseLoop fuel buf c').1 ∧
      scrub (OrderBook.parseLoop fuel buf c).2 =
        scrub (OrderBook.parseLoop fuel buf c').2 := by
  intro fuel
  induction fuel with
  | zero => intro buf c c' h; exact ⟨rfl, h⟩
  | succ k ih =>
    intro buf c c' h
    simp only [OrderBook.parseLoop]
    cases hp : ITCHParser.parse_one buf with
    | some r =>
      dsimp only
      by_cases hg : r.valid = false ∨ r.bytes_consumed = 0
      · rw [if_pos hg, if_pos hg]
        exact ⟨rfl, h⟩
      · rw [if_neg hg, if_neg hg]
        apply ih
        calc scrub (OrderBook.handle_message c r)
            = OrderBook.handle_message (scrub c) r := (handle_message_scrub c r).symm
          _ = OrderBook.handle_message (scrub c') r := by rw [h]
          _ = scrub (OrderBook.handle_message c' r) := handle_message_scrub c' r
    | none =>
      cases buf with
      | nil => exact ⟨rfl, h⟩
      | cons b rest =>
        dsimp only
        by_cases hz : get_itch_message_length b = 0
        · rw [if_pos hz, if_pos hz]
          apply ih
          rw [scrub_eq_iff] at h ⊢
          simp only []
          exact ⟨h.1, h.2.1, h.2.2.1, h.2.2.2.1, by rw [h.2.2.2.2.1],
            h.2.2.2.2.2.1, h.2.2.2.2.2.2⟩
        · rw [if_neg hz, if_neg hz]
          refine ⟨rfl, ?_⟩
          rw [scrub_eq_iff] at h ⊢
          exact h

-- ===========================================================================
-- Stream decomposition for C3
-- ===========================================================================

theorem runParse_nil (c : Core) : runParse [] c = ([], c) := rfl

theorem runParse_step_some (b : List Nat) (c : Core) (r : ParseResult)
    (hp : ITCHParser.parse_one b = some r) :
    runParse b c =
      runParse (b.drop r.bytes_consumed) (OrderBook.handle_message c r) := by
  obtain ⟨hv, hpos, hle⟩ := parse_one_some b r hp
  have hb : b ≠ [] := by
    intro hh
    subst hh
    cases hp
  obtain ⟨k, hk⟩ : ∃ k, b.length = k + 1 := by
    cases hb2 : b.length with
    | zero => exact absurd (List.length_eq_zero.mp hb2) hb
    | succ k => exact ⟨k, rfl⟩
  have hg : ¬ (r.valid = false ∨ r.bytes_consumed = 0) := by
    rintro (hh | hh)
    · rw [hv] at hh; cases hh
    · omega
  unfold runParse
  rw [hk]
  simp only [OrderBook.parseLoop, hp]
  rw [if_neg hg]
  apply parseLoop_fuel
  · simp only [List.length_drop]; omega
  · exact le_refl _

theorem runParse_step_unknown (b : Nat) (rest : List Nat) (c : Core)
    (hz : get_itch_message_length b = 0) :
    runParse (b :: rest) c =
      runParse rest { c with error_stats := { c.error_stats with
        unknown_message_types := c.error_stats.unknown_message_types + 1 } } := by
  have hpz : ITCHParser.parse_one (b :: rest) = none :=
    parse_one_unknown (b :: rest)
      (show get_itch_message_length ((b :: rest).getD 0 0) = 0 from hz)
  unfold runParse
  simp only [List.length_cons, OrderBook.parseLoop, hpz]
  rw [if_pos hz]

theorem scrub_bumpIncomplete (c : Core) :
    scrub { c with error_stats := { c.error_stats with
        incomplete_messages := c.error_stats.incomplete_messages + 1 } } =
      scrub c := by
  rw [scrub_eq_iff]
  exact ⟨rfl, rfl, rfl, rfl, rfl, rfl, rfl⟩

/-- Appending further bytes to a buffer and running the loop is, up to the
incomplete message counter, the same as running the loop on the buffer
first and then on its residual followed by the new bytes. -/
theorem runParse_append :
    ∀ (n : Nat) (b e : List Nat) (c : Core), b.length ≤ n →
      (runParse (b ++ e) c).1 =
        (runParse ((runParse b c).1 ++ e) (runParse b c).2).1 ∧
      scrub (runParse (b ++ e) c).2 =
        scrub (runParse ((runParse b c).1 ++ e) (runParse b c).2).2 := by
  intro n
  induction n with
  | zero =>
    intro b e c h
    have hb : b = [] := List.length_eq_zero.mp (by omega)
    subst hb
    rw [runParse_nil]
    simp only [List.nil_append]
    exact ⟨trivial, trivial⟩
  | succ k ih =>
    intro b e c h
    by_cases hb : b = []
    · subst hb
      rw [runParse_nil]
      simp only [List.nil_append]
      exact ⟨trivial, trivial⟩
    · cases hp : ITCHParser.parse_one b with
      | some r =>
        obtain ⟨hv, hpos, hle⟩ := parse_one_some b r hp
        have hpe : ITCHParser.parse_one (b ++ e) = some r :=
          parse_one_append b e r hp
        rw [runParse_step_some b c r hp, runParse_step_some (b ++ e) c r hpe,
            List.drop_append_of_le_length hle]
        exact ih (b.drop r.bytes_consumed) e (OrderBook.handle_message c r)
          (by simp only [List.length_drop]; omega)
      | none =>
        cases b with
        | nil => cases hb rfl
        | cons bb rest =>
          by_cases hz : get_itch_message_length bb = 0
          · rw [List.cons_append, runParse_step_unknown bb (rest ++ e) c hz,
                runParse_step_unknown bb rest c hz]
            exact ih rest e _ (by simp only [List.length_cons] at h; omega)
          · have hshort : (bb :: rest).length <
                get_itch_message_length ((bb :: rest).getD 0 0) :=
              parse_one_none_short (bb :: rest) (by simp)
                (show get_itch_message_length ((bb :: rest).getD 0 0) ≠ 0 from hz) hp
            have hblk : Blocked (bb :: rest) :=
              Or.inr ⟨show get_itch_message_length ((bb :: rest).getD 0 0) ≠ 0
                from hz, hshort⟩
            have hstep : runParse (bb :: rest) c =
                (bb :: rest, { c with error_stats := { c.error_stats with
                  incomplete_messages :=
                    c.error_stats.incomplete_messages + 1 } }) := by
              unfold runParse
              rw [parseLoop_blocked _ c _ hblk (le_refl _),
                  if_neg (by simp : ¬ (bb :: rest) = [])]
            rw [hstep]
            exact parseLoop_scrub ((bb :: rest) ++ e).length ((bb :: rest) ++ e)
              c _ (scrub_bumpIncomplete c).symm

theorem blocked_runParse (r : List Nat) (c : Core) (hb : Blocked r) :
    (runParse r c).1 = r ∧ scrub (runParse r c).2 = scrub c := by
  unfold runParse
  rw [parseLoop_blocked r c _ hb (le_refl _)]
  by_cases hr : r = []
  · rw [if_pos hr]
    exact ⟨rfl, rfl⟩
  · rw [if_neg hr]
    exact ⟨rfl, scrub_bumpIncomplete c⟩

/-- One producer round of the reduced pure system: append the chunk to the
residual buffer and run the parse loop. -/
def pureStep (p : List Nat × Core) (ch : List Nat) : List Nat × Core :=
  runParse (p.1 ++ ch) p.2

/-- Chunk folding is, up to the incomplete counter, running the loop once
over the whole flattened stream. -/
theorem pureFold_flat :
    ∀ (C : List (List Nat)) (r : List Nat) (c : Core), Blocked r →
      (C.foldl pureStep (r, c)).1 = (runParse (r ++ C.flatten) c).1 ∧
      scrub (C.foldl pureStep (r, c)).2 =
        scrub (runParse (r ++ C.flatten) c).2 := by
  intro C
  induction C with
  | nil =>
    intro r c hb
    simp only [List.foldl_nil, List.flatten_nil, List.append_nil]
    have hbr := blocked_runParse r c hb
    exact ⟨hbr.1.symm, hbr.2.symm⟩
  | cons ch rest ih =>
    intro r c hb
    simp only [List.foldl_cons, List.flatten_cons]
    have hblk1 : Blocked (runParse (r ++ ch) c).1 :=
      parseLoop_out_blocked _ _ _ (le_refl _)
    have hih := ih (runParse (r ++ ch) c).1 (runParse (r ++ ch) c).2 hblk1
    have hA := runParse_append (r ++ ch).length (r ++ ch) rest.flatten c
      (le_refl _)
    constructor
    · rw [← List.append_assoc, hA.1]
      exact hih.1
    · rw [← List.append_assoc, hA.2]
      exact hih.2

/-- Feed chunks one at a time, a process() call after every write, starting
from a fresh system with the default 4096 byte fabric. -/
def feedRun (C : List (List Nat)) : OrderBookSys :=
  C.foldl (fun s ch => OrderBook.process (OrderBookSys.write s ch))
    (OrderBookSys.init 4096)

/-- The interleaved write and process system run equals the pure chunk fold
whenever the fabric starts empty and every chunk fits both the fabric and
the reassembly headroom (at most 477 = 512 - 35 bytes). -/
theorem sysFold_pure :
    ∀ (C : List (List Nat)) (s : OrderBookSys),
      s.fabric.fifo = [] → s.fabric.current_depth_bytes = 0 →
      s.fabric.max_depth_bytes = 4096 → Blocked s.message_buffer →
      (∀ ch ∈ C, ch.length ≤ 477) →
      (C.foldl (fun t ch => OrderBook.process (OrderBookSys.write t ch))
          s).message_buffer = (C.foldl pureStep (s.message_buffer, s.core)).1 ∧
      (C.foldl (fun t ch => OrderBook.process (OrderBookSys.write t ch))
          s).core = (C.foldl pureStep (s.message_buffer, s.core)).2 := by
  intro C
  induction C with
  | nil => intro s _ _ _ _ _; exact ⟨rfl, rfl⟩
  | cons ch rest ih =>
    intro s hfifo hdepth hcap hblk hlen
    obtain ⟨⟨fifo0, cap0, depth0, ⟨bp, w, dp, rd, mx⟩⟩, buf0, core0⟩ := s
    simp only at hfifo hdepth hcap hblk
    subst hfifo
    subst hdepth
    subst hcap
    have hchlen : ch.length ≤ 477 := hlen ch (List.mem_cons_self ch rest)
    have hacc : ¬ ((4096 : Nat) < 0 + ch.length) := by omega
    have hblen : buf0.length ≤ 35 := Blocked_length buf0 hblk
    have hov : ¬ (MAX_BUFFER_SIZE < (buf0 ++ (ch ++ [])).length) := by
      simp only [MAX_BUFFER_SIZE, List.length_append, List.length_nil]
      omega
    have hstep : OrderBook.process (OrderBookSys.write
        ⟨⟨[], 4096, 0, ⟨bp, w, dp, rd, mx⟩⟩, buf0, core0⟩ ch) =
        ⟨⟨[], 4096, 0 + ch.length - ch.length,
            ⟨bp, w + ch.length, dp, rd + ch.length,
             if mx < 0 + ch.length then 0 + ch.length else mx⟩⟩,
          (runParse (buf0 ++ (ch ++ [])) core0).1,
          (runParse (buf0 ++ (ch ++ [])) core0).2⟩ := by
      unfold OrderBookSys.write DataFabric.write_chunk
      dsimp only
      rw [if_neg hacc]
      unfold OrderBook.process OrderBook.drainAll
      simp only [OrderBook.drainGo]
      rw [if_neg hov]
    simp only [List.append_nil] at hstep
    simp only [List.foldl_cons]
    rw [hstep]
    have hblk1 : Blocked (runParse (buf0 ++ ch) core0).1 :=
      parseLoop_out_blocked _ _ _ (le_refl _)
    have hrest : ∀ x ∈ rest, x.length ≤ 477 :=
      fun x hx => hlen x (List.mem_cons_of_mem ch hx)
    have hih := ih ⟨⟨[], 4096, 0 + ch.length - ch.length,
        ⟨bp, w + ch.length, dp, rd + ch.length,
         if mx < 0 + ch.length then 0 + ch.length else mx⟩⟩,
      (runParse (buf0 ++ ch) core0).1, (runParse (buf0 ++ ch) core0).2⟩
      rfl (by simp) rfl hblk1 hrest
    exact hih

/-- C3 (amended): two chunkings of the same byte stream, fed write by write
with a process() after each chunk into a fresh default system, end with the
same residual buffer and the same orders, index, book, observer events and
error counters except incomplete_messages, which may differ between
chunkings; the chunks must fit the reassembly headroom (at most 477 bytes
each) so that no overflow clears a buffer in one run only. -/
theorem C3_chunk_independence (C1 C2 : List (List Nat))
    (hM : C1.flatten = C2.flatten)
    (h1 : ∀ ch ∈ C1, ch.length ≤ 477)
    (h2 : ∀ ch ∈ C2, ch.length ≤ 477) :
    (feedRun C1).message_buffer = (feedRun C2).message_buffer ∧
    scrub (feedRun C1).core = scrub (feedRun C2).core := by
  have hi1 := sysFold_pure C1 (OrderBookSys.init 4096) rfl rfl rfl (Or.inl rfl) h1
  have hi2 := sysFold_pure C2 (OrderBookSys.init 4096) rfl rfl rfl (Or.inl rfl) h2
  have hf1 := pureFold_flat C1 [] Core.init (Or.inl rfl)
  have hf2 := pureFold_flat C2 [] Core.init (Or.inl rfl)
  constructor
  · calc (feedRun C1).message_buffer
        = (C1.foldl pureStep ([], Core.init)).1 := hi1.1
      _ = (runParse ([] ++ C1.flatten) Core.init).1 := hf1.1
      _ = (runParse ([] ++ C2.flatten) Core.init).1 := by rw [hM]
      _ = (C2.foldl pureStep ([], Core.init)).1 := hf2.1.symm
      _ = (feedRun C2).message_buffer := hi2.1.symm
  · calc scrub (feedRun C1).core
        = scrub (C1.foldl pureStep ([], Core.init)).2 := congrArg scrub hi1.2
      _ = scrub (runParse ([] ++ C1.flatten) Core.init).2 := hf1.2
      _ = scrub (runParse ([] ++ C2.flatten) Core.init).2 := by rw [hM]
      _ = scrub (C2.foldl pureStep ([], Core.init)).2 := hf2.2.symm
      _ = scrub (feedRun C2).core := (congrArg scrub hi2.2).symm

/-- Witness for C3: one Add delivered whole versus split after 10 bytes
gives the same residual buffer and scrub equal cores. -/
theorem C3_chunk_independence_witness :
    ([addProbeBuf].flatten =
        [addProbeBuf.take 10, addProbeBuf.drop 10].flatten ∧
     (∀ ch ∈ [addProbeBuf], ch.length ≤ 477) ∧
     (∀ ch ∈ [addProbeBuf.take 10, addProbeBuf.drop 10], ch.length ≤ 477)) ∧
    ((feedRun [addProbeBuf]).message_buffer =
       (feedRun [addProbeBuf.take 10, addProbeBuf.drop 10]).message_buffer ∧
     scrub (feedRun [addProbeBuf]).core =
       scrub (feedRun [addProbeBuf.take 10, addProbeBuf.drop 10]).core) :=
  ⟨⟨by decide, by decide, by decide⟩,
    C3_chunk_independence [addProbeBuf] [addProbeBuf.take 10, addProbeBuf.drop 10]
      (by decide) (by decide) (by decide)⟩

/-- Counterexample for C3 as stated: the same two runs do not agree on the
full core, because the split delivery counts one extra incomplete message;
so the final counters are not chunking independent. -/
theorem C3_counterexample :
    (feedRun [addProbeBuf]).core ≠
      (feedRun [addProbeBuf.take 10, addProbeBuf.drop 10]).core := by
  decide
